import Mathlib

/-!
Verification development for the joserfc repository (JWS / JWE facades).

The Python sources under the repository's `src/joserfc/jws.py` and
`src/joserfc/jwe.py` are shallowly embedded below.  Pure helpers that those
facades call but whose bodies live outside the sampled sources
(base64url codec, compact JSON, `check_header`, `guess_key`, the key `use`
check, the `rfc7515`/`rfc7516` pipeline objects and the crypto providers)
are modelled from the specification, as stated in each doc comment.
Machine integers are `Nat` with explicit `% 2 ^ 32` where overflow matters;
fallible code returns `Except`.
-/

namespace Joserfc

/-- A byte string: a list of naturals, each intended to be `< 256`. -/
abbrev Bytes := List Nat

instance {ε α : Type} [DecidableEq ε] [DecidableEq α] : DecidableEq (Except ε α) := by
  intro a b
  cases a <;> cases b
  case error.error e e' => exact decidable_of_iff (e = e') (by simp)
  case ok.ok v v' => exact decidable_of_iff (v = v') (by simp)
  all_goals exact isFalse (by simp)

/-- ASCII bytes of a Lean string literal (used for concrete inputs). -/
def strBytes (s : String) : Bytes := s.data.map Char.toNat

/-! ## SHA-256 (modelled crypto provider)

Modelled from the spec: section 1 places the hash/MAC primitives with the
external crypto providers and states only their contracts; HS256 is
HMAC-SHA256 per RFC 7518 section 3.2.  The functions below implement
FIPS 180-4 SHA-256 and RFC 2104 HMAC over byte lists so that the JWS
pipeline's signatures are concrete and executable. -/

/-- 32-bit truncation. -/
def w32 (n : Nat) : Nat := n % 4294967296

/-- 32-bit addition. -/
def add32 (a b : Nat) : Nat := (a + b) % 4294967296

/-- 32-bit right rotation. -/
def rotr32 (r x : Nat) : Nat := ((x >>> r) ||| (x <<< (32 - r))) % 4294967296

/-- SHA-256 round constants. -/
def shaK : List Nat :=
  [1116352408, 1899447441, 3049323471, 3921009573,
   961987163, 1508970993, 2453635748, 2870763221,
   3624381080, 310598401, 607225278, 1426881987,
   1925078388, 2162078206, 2614888103, 3248222580,
   3835390401, 4022224774, 264347078, 604807628,
   770255983, 1249150122, 1555081692, 1996064986,
   2554220882, 2821834349, 2952996808, 3210313671,
   3336571891, 3584528711, 113926993, 338241895,
   666307205, 773529912, 1294757372, 1396182291,
   1695183700, 1986661051, 2177026350, 2456956037,
   2730485921, 2820302411, 3259730800, 3345764771,
   3516065817, 3600352804, 4094571909, 275423344,
   430227734, 506948616, 659060556, 883997877,
   958139571, 1322822218, 1537002063, 1747873779,
   1955562222, 2024104815, 2227730452, 2361852424,
   2428436474, 2756734187, 3204031479, 3329325298]

/-- SHA-256 initial hash state. -/
def shaH0 : List Nat :=
  [1779033703, 3144134277, 1013904242, 2773480762,
   1359893119, 2600822924, 528734635, 1541459225]

/-- Big-endian octets of `x`, exactly `n` bytes (left-padded, truncating). -/
def toBytesBE : Nat → Nat → Bytes
  | 0, _ => []
  | n + 1, x => toBytesBE n (x / 256) ++ [x % 256]

/-- SHA-256 message padding: append `0x80`, zeros, and the 64-bit bit length. -/
def shaPad (msg : Bytes) : Bytes :=
  msg ++ 128 :: List.replicate ((119 - msg.length % 64) % 64) 0
      ++ toBytesBE 8 ((8 * msg.length) % 18446744073709551616)

/-- Split a list into chunks of `size`, with explicit fuel for structural
recursion (call with `fuel = bs.length`). -/
def chunkF : Nat → Nat → Bytes → List Bytes
  | 0, _, _ => []
  | _, _, [] => []
  | f + 1, size, bs => bs.take size :: chunkF f size (bs.drop size)

/-- Combine 4 big-endian bytes into a 32-bit word. -/
def word4 : Bytes → Nat
  | [b0, b1, b2, b3] => b0 * 16777216 + b1 * 65536 + b2 * 256 + b3
  | _ => 0

/-- The 16 words of a 64-byte block. -/
def blockWords (block : Bytes) : List Nat :=
  (chunkF block.length 4 block).map word4

/-- SHA-256 small sigma 0. -/
def ssig0 (x : Nat) : Nat := (rotr32 7 x) ^^^ (rotr32 18 x) ^^^ (x >>> 3)

/-- SHA-256 small sigma 1. -/
def ssig1 (x : Nat) : Nat := (rotr32 17 x) ^^^ (rotr32 19 x) ^^^ (x >>> 10)

/-- SHA-256 big sigma 0. -/
def bsig0 (x : Nat) : Nat := (rotr32 2 x) ^^^ (rotr32 13 x) ^^^ (rotr32 22 x)

/-- SHA-256 big sigma 1. -/
def bsig1 (x : Nat) : Nat := (rotr32 6 x) ^^^ (rotr32 11 x) ^^^ (rotr32 25 x)

/-- Extend 16 message words to the 64-word schedule. -/
def shaSchedule (w16 : List Nat) : List Nat :=
  (List.range 48).foldl
    (fun w _ =>
      let n := w.length
      w ++ [add32 (add32 (ssig1 (w.getD (n - 2) 0)) (w.getD (n - 7) 0))
                  (add32 (ssig0 (w.getD (n - 15) 0)) (w.getD (n - 16) 0))])
    w16

/-- One SHA-256 round on the 8-word working state. -/
def shaRound (st : List Nat) (kw : Nat × Nat) : List Nat :=
  match st with
  | [a, b, c, d, e, f, g, h] =>
    let t1 := add32 (add32 (add32 h (bsig1 e)) (add32 ((e &&& f) ^^^ ((e ^^^ 4294967295) &&& g)) kw.1)) kw.2
    let t2 := add32 (bsig0 a) ((a &&& b) ^^^ (a &&& c) ^^^ (b &&& c))
    [add32 t1 t2, a, b, c, add32 d t1, e, f, g]
  | other => other

/-- Compress one 64-byte block into the hash state. -/
def shaCompress (hst : List Nat) (block : Bytes) : List Nat :=
  let w := shaSchedule (blockWords block)
  let final := (shaK.zip w).foldl shaRound hst
  List.zipWith add32 hst final

/-- SHA-256 of a byte string. -/
def sha256 (msg : Bytes) : Bytes :=
  let padded := shaPad msg
  let hs := (chunkF padded.length 64 padded).foldl shaCompress shaH0
  (hs.map (toBytesBE 4)).foldr (· ++ ·) []

/-- HMAC-SHA256 per RFC 2104. -/
def hmacSha256 (key msg : Bytes) : Bytes :=
  let k0 := if 64 < key.length then sha256 key else key
  let k1 := k0 ++ List.replicate (64 - k0.length) 0
  sha256 ((k1.map (· ^^^ 92)) ++ sha256 ((k1.map (· ^^^ 54)) ++ msg))

/-! ## base64url codec (modelled codec primitive)

Modelled from the spec: section 4.1 specifies `b64url_encode`/`b64url_decode`
without padding, rejecting non-alphabet bytes and invalid lengths with a
decode error.  Like the platform codec the Python sources delegate to,
the decoder ignores the unused trailing bits of a final partial group. -/

/-- The base64url alphabet: index (< 64) to ASCII code. -/
def b64char (i : Nat) : Nat :=
  if i < 26 then 65 + i
  else if i < 52 then 97 + (i - 26)
  else if i < 62 then 48 + (i - 52)
  else if i = 62 then 45
  else 95

/-- Inverse of the base64url alphabet: ASCII code to index. -/
def b64idx (c : Nat) : Option Nat :=
  if 65 ≤ c ∧ c ≤ 90 then some (c - 65)
  else if 97 ≤ c ∧ c ≤ 122 then some (c - 97 + 26)
  else if 48 ≤ c ∧ c ≤ 57 then some (c - 48 + 52)
  else if c = 45 then some 62
  else if c = 95 then some 63
  else none

/-- base64url encoding without padding. -/
def b64encode : Bytes → Bytes
  | [] => []
  | [a] => [b64char (a / 4), b64char (a % 4 * 16)]
  | [a, b] => [b64char (a / 4), b64char (a % 4 * 16 + b / 16), b64char (b % 16 * 4)]
  | a :: b :: c :: rest =>
      b64char (a / 4) :: b64char (a % 4 * 16 + b / 16) :: b64char (b % 16 * 4 + c / 64)
        :: b64char (c % 64) :: b64encode rest

/-- base64url decoding without padding: rejects non-alphabet bytes and a
final group of one character; unused trailing bits are discarded. -/
def b64decode : Bytes → Option Bytes
  | [] => some []
  | [_] => none
  | [c1, c2] =>
      match b64idx c1, b64idx c2 with
      | some i1, some i2 => some [i1 * 4 + i2 / 16]
      | _, _ => none
  | [c1, c2, c3] =>
      match b64idx c1, b64idx c2, b64idx c3 with
      | some i1, some i2, some i3 => some [i1 * 4 + i2 / 16, i2 % 16 * 16 + i3 / 4]
      | _, _, _ => none
  | c1 :: c2 :: c3 :: c4 :: rest =>
      match b64idx c1, b64idx c2, b64idx c3, b64idx c4, b64decode rest with
      | some i1, some i2, some i3, some i4, some bs =>
          some ((i1 * 4 + i2 / 16) :: (i2 % 16 * 16 + i3 / 4) :: (i3 % 4 * 64 + i4) :: bs)
      | _, _, _, _, _ => none

/-! ## Compact JSON for string-valued headers (modelled codec primitive)

Modelled from the spec: section 4.1 specifies `compact_json` as deterministic
UTF-8 with no insignificant whitespace and key order preserved; section 4.5
requires the extractor to decode the header JSON, which must be an object.
Headers in this development are ordered string-to-string mappings. -/

/-- A JOSE header: an ordered association list of byte-string parameters. -/
abbrev Header := List (Bytes × Bytes)

/-- Header parameter lookup (first binding wins, as in a Python dict). -/
def hlookup (h : Header) (k : Bytes) : Option Bytes :=
  match h with
  | [] => none
  | (k', v) :: t => if k' = k then some v else hlookup t k

/-- Members of a compact JSON object, including the closing brace. -/
def jsonMembers : Header → Bytes
  | [] => [125]
  | (k, v) :: t =>
      34 :: (k ++ (34 :: 58 :: 34 :: (v ++ (34 ::
        (match t with
         | [] => [125]
         | _ => 44 :: jsonMembers t)))))

/-- Compact JSON of a string-valued object: `{"k":"v",...}`. -/
def jsonEncode (h : Header) : Bytes :=
  match h with
  | [] => [123, 125]
  | _ => 123 :: jsonMembers h

/-- Parse a JSON string body up to the closing quote. -/
def parseStr : Bytes → Option (Bytes × Bytes)
  | [] => none
  | c :: r =>
      if c = 34 then some ([], r)
      else match parseStr r with
           | some (s, rest) => some (c :: s, rest)
           | none => none

/-- Parse the members of a JSON object (after the opening brace), consuming
the closing brace; fuelled for structural recursion. -/
def parseMembers : Nat → Bytes → Option (Header × Bytes)
  | 0, _ => none
  | fuel + 1, bs =>
      match bs with
      | [] => none
      | c :: r1 =>
          if c = 34 then
            match parseStr r1 with
            | none => none
            | some (k, r1') =>
                match r1' with
                | c1 :: c2 :: r2 =>
                    if c1 = 58 ∧ c2 = 34 then
                      match parseStr r2 with
                      | none => none
                      | some (v, rest) =>
                          match rest with
                          | [] => none
                          | d :: r3 =>
                              if d = 44 then
                                match parseMembers fuel r3 with
                                | some (t, r) => some ((k, v) :: t, r)
                                | none => none
                              else if d = 125 then some ([(k, v)], r3)
                              else none
                    else none
                | _ => none
          else none

/-- Parse a compact JSON object of string members; rejects non-objects and
trailing garbage. -/
def jsonParse (bs : Bytes) : Option Header :=
  match bs with
  | [] => none
  | c :: r =>
      if c = 123 then
        match r with
        | [] => none
        | d :: r2 =>
            if d = 125 then (if r2 = [] then some [] else none)
            else
              match parseMembers r.length r with
              | some (h, []) => some h
              | _ => none
      else none

/-! ## Dot-separated compact serialization -/

/-- Split a byte string on `'.'` (ASCII 46), as Python `bytes.split(b".")`. -/
def splitOnDot : Bytes → List Bytes
  | [] => [[]]
  | c :: r =>
      if c = 46 then [] :: splitOnDot r
      else match splitOnDot r with
           | [] => [[c]]
           | h :: t => (c :: h) :: t

/-! ## Key model (modelled from the spec)

Modelled from the spec: section 3 gives the key data model (an optional
declared `use`, an optional `alg` constraint, an optional `key_ops` set and
kind-specific material) and section 4.2 gives `check_use`/`check_alg`/
`check_ops`, each raising a specific error variant on mismatch.  Only the
symmetric (`oct`) material `k` is needed by the embedded pipelines. -/

/-- Error kinds of the facade, from spec section 7 and `joserfc.errors`. -/
inductive JoseError where
  | decodeError : JoseError
  | missingHeader : Bytes → JoseError
  | invalidHeaderValue : JoseError
  | unknownAlgorithm : JoseError
  | algNotAllowed : Bytes → JoseError
  | unsupportedKeyUse : JoseError
  | unsupportedKeyAlg : JoseError
  | unsupportedKeyOp : JoseError
  | invalidKey : JoseError
  | badSignature : JoseError
  deriving DecidableEq, Repr

/-- A key: symmetric material `k` plus the declared-policy members. -/
structure Key where
  k : Bytes
  use : Option Bytes := none
  alg : Option Bytes := none
  key_ops : Option (List Bytes) := none
  deriving DecidableEq, Repr

/-- An `oct` key built from a raw secret, as `OctKey.import_key("secret")`. -/
def OctKey (s : String) : Key := { k := strBytes s }

/-- Modelled from the spec: `check_use(Key, "sig"|"enc")` raises
`UnsupportedKeyUseError` when the key declares the other use
(section 4.2; `key.check_use('sig')` is called by `jws.py`). -/
def Key.check_use (key : Key) (u : Bytes) : Except JoseError Unit :=
  match key.use with
  | none => .ok ()
  | some x => if x = u then .ok () else .error .unsupportedKeyUse

/-- Modelled from the spec: `guess_key(candidate, message, operation)`
resolves the caller's key and checks its declared `key_ops` against the
operation and its declared `alg` against the header's algorithm
(sections 4.2 and 4.5 step 3), raising `UnsupportedKeyOperationError` or
`UnsupportedKeyAlgorithmError`.  The candidate here is already a single
key; the message is projected to its header `alg` value. -/
def guess_key (key : Key) (halg : Bytes) (op : Bytes) : Except JoseError Key :=
  match key.key_ops with
  | some ops =>
      if op ∈ ops then
        match key.alg with
        | some a => if a = halg then .ok key else .error .unsupportedKeyAlg
        | none => .ok key
      else .error .unsupportedKeyOp
  | none =>
      match key.alg with
      | some a => if a = halg then .ok key else .error .unsupportedKeyAlg
      | none => .ok key

/-! ## JWS algorithms (modelled from the spec)

Modelled from the spec: section 4.3 binds each JWS algorithm name to
`sign(payload, key) -> signature` and `verify(payload, signature, key) -> bool`.
The registry entries whose providers are concrete here are `HS256`
(HMAC-SHA256, deterministic) and `none`; the asymmetric providers are
external collaborators (spec section 1). -/

/-- A JWS algorithm descriptor. -/
structure JWSAlgorithm where
  name : Bytes
  sign : Bytes → Key → Bytes
  verify : Bytes → Bytes → Key → Bool

/-- HS256: HMAC-SHA256 with constant-time comparison on verify. -/
def HS256 : JWSAlgorithm :=
  { name := strBytes "HS256"
    sign := fun msg key => hmacSha256 key.k msg
    verify := fun msg sig key => sig = hmacSha256 key.k msg }

/-- Modelled from the spec: the `none` algorithm signs with an empty
signature; its `verify` is pinned by the repository test `test_none_alg`
(`tests/jws/test_errors.py`), which expects `BadSignatureError` from
`deserialize_compact` even when `none` is explicitly allowed, so `verify`
always returns false. -/
def NoneAlgorithm : JWSAlgorithm :=
  { name := strBytes "none"
    sign := fun _ _ => []
    verify := fun _ _ _ => false }

/-- The supported-algorithms registry (`JWS_REGISTRY` in `jws.py`), limited
to the entries whose cryptographic providers are modelled. -/
def JWS_REGISTRY (n : Bytes) : Option JWSAlgorithm :=
  if n = strBytes "HS256" then some HS256
  else if n = strBytes "none" then some NoneAlgorithm
  else none

/-- Recommended "alg" header parameter values for JWS (`jws.py`). -/
def RECOMMENDED_ALGORITHMS : List Bytes :=
  [strBytes "HS256", strBytes "RS256", strBytes "ES256"]

/-! ## JWS compact pipeline

`serialize_compact`, `validate_compact` and `deserialize_compact` are
embedded line by line from `src/joserfc/jws.py`.  `CompactData`,
`extract_compact` and `check_header` live in `joserfc.rfc7515` outside the
sampled sources and are modelled from spec sections 3, 4.4 and 4.5. -/

/-- Modelled from the spec: `check_header(header, required)` fails with a
missing-header error when a required parameter is absent (spec sections 3
and 4.4; values here are strings, so the per-type checks of the header
registry are satisfied vacuously). -/
def check_header (header : Header) (required : List Bytes) : Except JoseError Unit :=
  match required with
  | [] => .ok ()
  | r :: rest =>
      match hlookup header r with
      | some _ => check_header header rest
      | none => .error (.missingHeader r)

/-- JWS compact data: protected header, payload, the original encoded
header and payload segments (kept for signature verification, spec
section 4.5 "Compact extract"), and the decoded signature. -/
structure CompactData where
  header : Header
  payload : Bytes
  headerSegment : Bytes
  payloadSegment : Bytes
  signature : Bytes := []
  deriving DecidableEq, Repr

/-- Construct compact data for signing, as `CompactData(header, payload)`. -/
def CompactData.mk' (header : Header) (payload : Bytes) : CompactData :=
  { header := header
    payload := payload
    headerSegment := b64encode (jsonEncode header)
    payloadSegment := b64encode payload }

/-- The signing input `b64url(json(header)) || '.' || b64url(payload)`. -/
def CompactData.signingInput (obj : CompactData) : Bytes :=
  obj.headerSegment ++ 46 :: obj.payloadSegment

/-- Method `CompactData.sign`: compute the signature over the signing input and
emit the three dot-joined segments (modelled from spec section 4.5
steps 4-6). -/
def CompactData.sign (obj : CompactData) (algorithm : JWSAlgorithm) (key : Key) : Bytes :=
  obj.signingInput ++ 46 :: b64encode (algorithm.sign obj.signingInput key)

/-- Method `CompactData.verify`: verify the stored signature over the original
encoded segments (modelled from spec section 4.5 "Compact verify"). -/
def CompactData.verify (obj : CompactData) (algorithm : JWSAlgorithm) (key : Key) : Bool :=
  algorithm.verify obj.signingInput obj.signature key

/-- Modelled from the spec: `extract_compact` splits on `'.'` into exactly
three parts, decodes the header JSON (which must be an object), payload and
signature, and preserves the original encoded segments (spec sections 4.5
and 6). -/
def extract_compact (value : Bytes) : Except JoseError CompactData :=
  match splitOnDot value with
  | [h64, p64, s64] =>
      match b64decode h64 with
      | none => .error .decodeError
      | some hb =>
          match jsonParse hb with
          | none => .error .decodeError
          | some header =>
              match b64decode p64, b64decode s64 with
              | some payload, some sig =>
                  .ok { header := header, payload := payload,
                        headerSegment := h64, payloadSegment := p64, signature := sig }
              | _, _ => .error .decodeError
  | _ => .error .decodeError

/-- Helper `to_bytes` of `joserfc.util`: the identity on byte strings. -/
def to_bytes (value : Bytes) : Bytes := value

/-- Facade `serialize_compact(header, payload, key, allowed_algorithms)` from
`src/joserfc/jws.py`: check the required `alg` header, default the allowed
list, enforce the allowlist, resolve and check the key, then sign. -/
def serialize_compact (header : Header) (payload : Bytes) (key : Key)
    (allowed_algorithms : Option (List Bytes)) : Except JoseError Bytes :=
  match check_header header [strBytes "alg"] with
  | .error e => .error e
  | .ok _ =>
    let algs := allowed_algorithms.getD RECOMMENDED_ALGORITHMS
    match hlookup header (strBytes "alg") with
    | none => .error (.missingHeader (strBytes "alg"))
    | some alg =>
      if alg ∈ algs then
        let obj := CompactData.mk' header payload
        match guess_key key alg (strBytes "sign") with
        | .error e => .error e
        | .ok k =>
          match k.check_use (strBytes "sig") with
          | .error e => .error e
          | .ok _ =>
            match JWS_REGISTRY alg with
            | none => .error .unknownAlgorithm
            | some algorithm => .ok (obj.sign algorithm k)
      else .error (.algNotAllowed alg)

/-- Facade `validate_compact(obj, key, allowed_algorithms)` from
`src/joserfc/jws.py`: default the allowed list, enforce the allowlist,
resolve and check the key, then verify, raising `BadSignatureError` on
failure. -/
def validate_compact (obj : CompactData) (key : Key)
    (allowed_algorithms : Option (List Bytes)) : Except JoseError Unit :=
  let algs := allowed_algorithms.getD RECOMMENDED_ALGORITHMS
  match hlookup obj.header (strBytes "alg") with
  | none => .error (.missingHeader (strBytes "alg"))
  | some alg =>
    if alg ∈ algs then
      match guess_key key alg (strBytes "verify") with
      | .error e => .error e
      | .ok k =>
        match k.check_use (strBytes "sig") with
        | .error e => .error e
        | .ok _ =>
          match JWS_REGISTRY alg with
          | none => .error .unknownAlgorithm
          | some algorithm =>
              if obj.verify algorithm k then .ok () else .error .badSignature
    else .error (.algNotAllowed alg)

/-- Facade `deserialize_compact(value, key, allowed_algorithms)` from
`src/joserfc/jws.py`: extract, validate, and return the extracted object. -/
def deserialize_compact (value : Bytes) (key : Key)
    (allowed_algorithms : Option (List Bytes)) : Except JoseError CompactData :=
  match extract_compact (to_bytes value) with
  | .error e => .error e
  | .ok obj =>
      match validate_compact obj key allowed_algorithms with
      | .error e => .error e
      | .ok _ => .ok obj

/-! ## JWE pipeline (modelled from the spec)

The facades `encrypt_compact`, `decrypt_compact`, `encrypt_json` and
`decrypt_json` are embedded from `src/joserfc/jwe.py`.  The objects they
delegate to (`joserfc.rfc7516`: `CompactEncryption`, `Recipient`,
`perform_encrypt`, `perform_decrypt`, `represent_compact`,
`extract_compact`, the registry and the algorithm models) are outside the
sampled sources and are modelled from spec sections 4.3, 4.6 and 6.
Random CEK and IV draws are made explicit as an `rng` byte-stream input. -/

/-- A JWE recipient: an optional resolved key, a per-recipient header and
the wrapped CEK bytes (spec section 3 "Recipient"). -/
structure Recipient where
  recipient_key : Option Key := none
  header : Header := []
  encrypted_key : Bytes := []
  deriving DecidableEq, Repr

/-- Modelled from the spec: `guess_key(candidate, recipient)` as called by
`jwe.py` resolves the caller-supplied key material to a single key; the
candidate here is already a single key. -/
def guess_key_jwe (key : Key) (_recipient : Recipient) : Key := key

/-- A JWE key-management algorithm model: `wrap`/`unwrap` of the CEK, or a
direct mode that supplies the CEK (spec section 4.3 "JWE-alg"). -/
structure JWEAlgModel where
  name : Bytes
  direct : Bool
  wrap : Bytes → Key → Bytes
  unwrap : Bytes → Key → Option Bytes

/-- A JWE content-encryption model with its CEK and IV sizes (spec
section 4.3 "JWE-enc"); `decrypt` fails on tag mismatch. -/
structure JWEEncModel where
  name : Bytes
  cek_size : Nat
  iv_size : Nat
  encrypt : Bytes → Bytes → Bytes → Bytes → Bytes × Bytes
  decrypt : Bytes → Bytes → Bytes → Bytes → Bytes → Option Bytes

/-- A JWE compression model (spec section 4.3 "JWE-zip"). -/
structure JWEZipModel where
  name : Bytes
  compress : Bytes → Bytes
  decompress : Bytes → Option Bytes

/-- A JWE registry: the registered algorithm models. -/
structure JWERegistry where
  algs : List JWEAlgModel
  encs : List JWEEncModel
  zips : List JWEZipModel

/-- XOR a byte stream with a cyclically repeated pad starting at offset
`i`; an involution used by the modelled providers below. -/
def xorPadAux (pad : Bytes) : Nat → Bytes → Bytes
  | _, [] => []
  | i, b :: t => (b ^^^ pad.getD (i % pad.length) 0) :: xorPadAux pad (i + 1) t

/-- XOR a byte stream with a cyclically repeated pad (identity when the
pad is empty). -/
def xorPad (pad bs : Bytes) : Bytes :=
  match pad with
  | [] => bs
  | _ => xorPadAux pad 0 bs

/-- Modelled from the spec: the `dir` key-management algorithm — the CEK is
the symmetric key's octets and `encrypted_key` is empty (spec section 4.6). -/
def dirAlg : JWEAlgModel :=
  { name := strBytes "dir"
    direct := true
    wrap := fun _ _ => []
    unwrap := fun _ _ => some [] }

/-- Modelled from the spec: an `A128KW`-shaped key-wrap algorithm — a
keyed, invertible wrap of the CEK standing in for the external AES-KW
provider whose contract `unwrap(wrap(cek, k), k) = cek` the core consumes
(spec sections 1 and 4.3). -/
def kwAlg : JWEAlgModel :=
  { name := strBytes "A128KW"
    direct := false
    wrap := fun cek key => xorPad key.k cek
    unwrap := fun ek key => some (xorPad key.k ek) }

/-- Modelled from the spec: an `A256GCM`-shaped AEAD model — a keyed,
invertible transform of the plaintext with an HMAC tag over the AAD, IV and
ciphertext, standing in for the external AES-GCM provider whose contract
`decrypt(encrypt(P, cek, iv, aad)) = P` (and tag failure on mismatch) the
core consumes (spec sections 1 and 4.3). -/
def gcmEnc : JWEEncModel :=
  { name := strBytes "A256GCM"
    cek_size := 32
    iv_size := 12
    encrypt := fun pt cek iv aad =>
      let ct := xorPad (cek ++ iv) pt
      (ct, hmacSha256 cek (aad ++ iv ++ ct))
    decrypt := fun ct cek iv aad tag =>
      if tag = hmacSha256 cek (aad ++ iv ++ ct) then some (xorPad (cek ++ iv) ct)
      else none }

/-- Modelled from the spec: the `DEF` compression model — an invertible
framing standing in for the external raw-DEFLATE provider whose contract
`decompress(compress(P)) = P` the core consumes (spec section 4.3). -/
def defZip : JWEZipModel :=
  { name := strBytes "DEF"
    compress := fun bs => 120 :: bs
    decompress := fun bs =>
      match bs with
      | 120 :: rest => some rest
      | _ => none }

/-- The default JWE registry with the modelled algorithms. -/
def default_registry : JWERegistry :=
  { algs := [dirAlg, kwAlg], encs := [gcmEnc], zips := [defZip] }

/-- Look up the key-management algorithm named by the header. -/
def JWERegistry.get_alg (reg : JWERegistry) (n : Bytes) : Option JWEAlgModel :=
  reg.algs.find? (fun m => m.name = n)

/-- Look up the content-encryption algorithm named by the header. -/
def JWERegistry.get_enc (reg : JWERegistry) (n : Bytes) : Option JWEEncModel :=
  reg.encs.find? (fun m => m.name = n)

/-- Look up the compression algorithm named by the header. -/
def JWERegistry.get_zip (reg : JWERegistry) (n : Bytes) : Option JWEZipModel :=
  reg.zips.find? (fun m => m.name = n)

/-- JWE compact data: the protected header, the plaintext, and the five
wire segments, with the original encoded protected header preserved for
the AAD (spec sections 3 and 4.6). -/
structure CompactEncryption where
  protected_header : Header
  plaintext : Bytes := []
  protectedSegment : Bytes := []
  encrypted_key : Bytes := []
  iv : Bytes := []
  ciphertext : Bytes := []
  tag : Bytes := []
  deriving DecidableEq, Repr

/-- Modelled from the spec: `perform_encrypt` for the compact (single
recipient) form — resolve `alg`/`enc`/`zip` from the protected header,
obtain the CEK (direct mode or fresh random bytes, wrapped for the
recipient), compress if `zip` is set, draw the IV, set the AAD to the
encoded protected header, and encrypt (spec section 4.6 steps 1-6). -/
def perform_encrypt (obj : CompactEncryption) (key : Key) (registry : JWERegistry)
    (rng : Bytes) : Except JoseError CompactEncryption :=
  match hlookup obj.protected_header (strBytes "alg"),
        hlookup obj.protected_header (strBytes "enc") with
  | some algName, some encName =>
      match registry.get_alg algName, registry.get_enc encName with
      | some alg, some enc =>
          let zipResult : Except JoseError Bytes :=
            match hlookup obj.protected_header (strBytes "zip") with
            | none => .ok obj.plaintext
            | some zipName =>
                match registry.get_zip zipName with
                | some z => .ok (z.compress obj.plaintext)
                | none => .error .unknownAlgorithm
          match zipResult with
          | .error e => .error e
          | .ok pt =>
              let cek := if alg.direct then key.k else rng.take enc.cek_size
              let ek := if alg.direct then [] else alg.wrap cek key
              let iv := (rng.drop enc.cek_size).take enc.iv_size
              let aad := b64encode (jsonEncode obj.protected_header)
              let ctTag := enc.encrypt pt cek iv aad
              .ok { obj with
                    protectedSegment := aad
                    encrypted_key := ek
                    iv := iv
                    ciphertext := ctTag.1
                    tag := ctTag.2 }
      | _, _ => .error .unknownAlgorithm
  | _, _ => .error (.missingHeader (strBytes "alg"))

/-- Modelled from the spec: `perform_decrypt` for the compact form —
resolve the algorithms, unwrap or take the CEK, recompute the AAD from the
original encoded protected header, decrypt (tag failure is a bad-signature
error), and decompress if `zip` is set (spec section 4.6). -/
def perform_decrypt (obj : CompactEncryption) (key : Key) (registry : JWERegistry) :
    Except JoseError CompactEncryption :=
  match hlookup obj.protected_header (strBytes "alg"),
        hlookup obj.protected_header (strBytes "enc") with
  | some algName, some encName =>
      match registry.get_alg algName, registry.get_enc encName with
      | some alg, some enc =>
          let cekResult : Except JoseError Bytes :=
            if alg.direct then .ok key.k
            else match alg.unwrap obj.encrypted_key key with
                 | some cek => .ok cek
                 | none => .error .invalidKey
          match cekResult with
          | .error e => .error e
          | .ok cek =>
              match enc.decrypt obj.ciphertext cek obj.iv obj.protectedSegment obj.tag with
              | none => .error .badSignature
              | some pt =>
                  match hlookup obj.protected_header (strBytes "zip") with
                  | none => .ok { obj with plaintext := pt }
                  | some zipName =>
                      match registry.get_zip zipName with
                      | none => .error .unknownAlgorithm
                      | some z =>
                          match z.decompress pt with
                          | some pt' => .ok { obj with plaintext := pt' }
                          | none => .error .decodeError
      | _, _ => .error .unknownAlgorithm
  | _, _ => .error (.missingHeader (strBytes "alg"))

/-- Modelled from the spec: `represent_compact` emits the five dot-joined
base64url segments `protected.encrypted_key.iv.ciphertext.tag`
(spec section 6). -/
def represent_compact (obj : CompactEncryption) : Bytes :=
  obj.protectedSegment ++ 46 :: b64encode obj.encrypted_key
    ++ 46 :: b64encode obj.iv ++ 46 :: b64encode obj.ciphertext
    ++ 46 :: b64encode obj.tag

/-- Modelled from the spec: the JWE `extract_compact` splits on `'.'` into
exactly five segments (empty segments permitted), decodes them, and keeps
the original encoded protected header (spec section 6). -/
def extract_compact_jwe (value : Bytes) : Except JoseError CompactEncryption :=
  match splitOnDot value with
  | [p64, ek64, iv64, ct64, tag64] =>
      match b64decode p64 with
      | none => .error .decodeError
      | some pb =>
          match jsonParse pb with
          | none => .error .decodeError
          | some header =>
              match b64decode ek64, b64decode iv64, b64decode ct64, b64decode tag64 with
              | some ek, some iv, some ct, some tag =>
                  .ok { protected_header := header, protectedSegment := p64,
                        encrypted_key := ek, iv := iv, ciphertext := ct, tag := tag }
              | _, _, _, _ => .error .decodeError
  | _ => .error .decodeError

/-- Facade `encrypt_compact(protected, plaintext, public_key, registry)` from
`src/joserfc/jwe.py`: build the compact object, resolve the recipient key,
perform the encryption and serialize; the RNG draw is explicit. -/
def encrypt_compact (protected_header : Header) (plaintext : Bytes) (public_key : Key)
    (registry : Option JWERegistry) (rng : Bytes) : Except JoseError Bytes :=
  let reg := registry.getD default_registry
  let obj : CompactEncryption := { protected_header := protected_header, plaintext := plaintext }
  let recipient : Recipient := {}
  let key := guess_key_jwe public_key recipient
  match perform_encrypt obj key reg rng with
  | .error e => .error e
  | .ok obj' => .ok (represent_compact obj')

/-- Facade `decrypt_compact(value, private_key, registry)` from
`src/joserfc/jwe.py`: extract the compact form, resolve the recipient key,
and perform the decryption. -/
def decrypt_compact (value : Bytes) (private_key : Key)
    (registry : Option JWERegistry) : Except JoseError CompactEncryption :=
  match extract_compact_jwe (to_bytes value) with
  | .error e => .error e
  | .ok obj =>
      let reg := registry.getD default_registry
      let recipient : Recipient := {}
      let key := guess_key_jwe private_key recipient
      perform_decrypt obj key reg

/-- JWE JSON-serialization data: protected header, plaintext and the
recipient records (spec section 3 "JSONEncryption"). -/
structure JSONEncryption where
  protected_header : Header := []
  plaintext : Bytes := []
  recipients : List Recipient := []
  deriving DecidableEq, Repr

/-- The recipient-key resolution pass of `encrypt_json`
(`src/joserfc/jwe.py` lines 99-101): resolve a key via `guess_key` only
for recipients whose `recipient_key` is unset. -/
def encrypt_json_assign_keys (public_key : Key) (obj : JSONEncryption) : JSONEncryption :=
  { obj with
    recipients := obj.recipients.map (fun r =>
      match r.recipient_key with
      | some _ => r
      | none => { r with recipient_key := some (guess_key_jwe public_key r) }) }

/-- The recipient-key resolution pass of `decrypt_json`
(`src/joserfc/jwe.py` lines 116-117): assign a resolved key to every
recipient unconditionally. -/
def decrypt_json_assign_keys (private_key : Key) (obj : JSONEncryption) : JSONEncryption :=
  { obj with
    recipients := obj.recipients.map (fun r =>
      { r with recipient_key := some (guess_key_jwe private_key r) }) }

/-- A byte string is plain when it contains no quote, no backslash, and
only genuine bytes; JOSE header names and values in this development are
plain ASCII. -/
def PlainStr (s : Bytes) : Prop := 34 ∉ s ∧ 92 ∉ s ∧ ∀ c ∈ s, c < 256

instance (s : Bytes) : Decidable (PlainStr s) := by
  unfold PlainStr; infer_instance

/-- A header is plain when all its names and values are. -/
def PlainHeader (h : Header) : Prop := ∀ p ∈ h, PlainStr p.1 ∧ PlainStr p.2

instance (h : Header) : Decidable (PlainHeader h) := by
  unfold PlainHeader; infer_instance

/-! ## Concrete fixtures -/

/-- The header `{"alg":"HS256"}`. -/
def hdrHS256 : Header := [(strBytes "alg", strBytes "HS256")]

/-- The HS256 compact token for payload `b"i"` under key `"secret"`. -/
def tokenHS256 : Bytes :=
  strBytes "eyJhbGciOiJIUzI1NiJ9.aQ.ykJjBUzgjyTygc7gjHM8emwLYvpqGRNIQvpTMHfZzI4"

/-- HMAC-SHA256 of `"eyJhbGciOiJIUzI1NiJ9.aQ"` under key `"secret"`. -/
def sigHS256bytes : Bytes :=
  [202, 66, 99, 5, 76, 224, 143, 36, 242, 129, 206, 224, 140, 115, 60, 122,
   108, 11, 98, 250, 106, 25, 19, 72, 66, 250, 83, 48, 119, 217, 204, 142]

/-- The compact data extracted from `tokenHS256`. -/
def objHS256 : CompactData :=
  { header := hdrHS256
    payload := strBytes "i"
    headerSegment := strBytes "eyJhbGciOiJIUzI1NiJ9"
    payloadSegment := strBytes "aQ"
    signature := sigHS256bytes }

/-- The composition the claim describes, following the spec's words:
extract the byte form of the value, validate the extracted object with the
same key and allowed list, and return that object unchanged. -/
def deserialize_compact_spec (value : Bytes) (key : Key)
    (allowed_algorithms : Option (List Bytes)) : Except JoseError CompactData :=
  (extract_compact (to_bytes value)).bind
    (fun obj => (validate_compact obj key allowed_algorithms).map (fun _ => obj))

/-- The token `tokenHS256` with the final base64url character `'4'` replaced by
`'5'`: the two characters differ only in the trailing bits the decoder
discards, so the decoded signature is unchanged. -/
def tokenHS256_sig_tampered : Bytes :=
  strBytes "eyJhbGciOiJIUzI1NiJ9.aQ.ykJjBUzgjyTygc7gjHM8emwLYvpqGRNIQvpTMHfZzI5"

/-- The token `tokenHS256` with one byte of the payload segment changed
(`"aQ"` to `"bQ"`). -/
def tokenHS256_payload_tampered : Bytes :=
  strBytes "eyJhbGciOiJIUzI1NiJ9.bQ.ykJjBUzgjyTygc7gjHM8emwLYvpqGRNIQvpTMHfZzI4"

/-- The compact data extracted from `tokenHS256_payload_tampered`. -/
def objPayloadTampered : CompactData :=
  { header := hdrHS256
    payload := [109]
    headerSegment := strBytes "eyJhbGciOiJIUzI1NiJ9"
    payloadSegment := strBytes "bQ"
    signature := sigHS256bytes }

/-- The compact data recovered after extracting a freshly signed token. -/
def signedData (header : Header) (payload : Bytes) (A : JWSAlgorithm) (key : Key) :
    CompactData :=
  { header := header
    payload := payload
    headerSegment := b64encode (jsonEncode header)
    payloadSegment := b64encode payload
    signature := A.sign (CompactData.mk' header payload).signingInput key }

/-- A recipient that arrives with a key already assigned. -/
def preRecipient : Recipient := { recipient_key := some (OctKey "pre") }

/-- The two-recipient JSON encryption used as the C9 witness input. -/
def twoRecipients : JSONEncryption := { recipients := [preRecipient, {}] }

set_option maxRecDepth 100000

/-! ## Lemmas: base64url -/

theorem b64idx_b64char : ∀ i < 64, b64idx (b64char i) = some i := by decide

theorem b64char_ne_dot : ∀ i < 64, b64char i ≠ 46 := by decide

theorem b64char_lt : ∀ i < 64, b64char i < 256 := by decide

/-- Every output character of the encoder is an alphabet character. -/
theorem mem_b64encode (bs : Bytes) (hb : ∀ b ∈ bs, b < 256) :
    ∀ x ∈ b64encode bs, ∃ j < 64, x = b64char j := by
  induction bs using b64encode.induct with
  | case1 => intro x hx; simp [b64encode] at hx
  | case2 a =>
      intro x hx
      have ha : a < 256 := hb a (by simp)
      simp only [b64encode, List.mem_cons, List.not_mem_nil, or_false] at hx
      rcases hx with h | h
      · exact ⟨a / 4, by omega, h⟩
      · exact ⟨a % 4 * 16, by omega, h⟩
  | case3 a b =>
      intro x hx
      have ha : a < 256 := hb a (by simp)
      have hbb : b < 256 := hb b (by simp)
      simp only [b64encode, List.mem_cons, List.not_mem_nil, or_false] at hx
      rcases hx with h | h | h
      · exact ⟨a / 4, by omega, h⟩
      · exact ⟨a % 4 * 16 + b / 16, by omega, h⟩
      · exact ⟨b % 16 * 4, by omega, h⟩
  | case4 a b c rest ih =>
      intro x hx
      have ha : a < 256 := hb a (by simp)
      have hbb : b < 256 := hb b (by simp)
      have hc : c < 256 := hb c (by simp)
      simp only [b64encode, List.mem_cons] at hx
      rcases hx with h | h | h | h | h
      · exact ⟨a / 4, by omega, h⟩
      · exact ⟨a % 4 * 16 + b / 16, by omega, h⟩
      · exact ⟨b % 16 * 4 + c / 64, by omega, h⟩
      · exact ⟨c % 64, by omega, h⟩
      · exact ih (fun y hy => hb y (by simp [hy])) x h

/-- The encoder never emits a dot. -/
theorem b64encode_ne_dot (bs : Bytes) (hb : ∀ b ∈ bs, b < 256) : 46 ∉ b64encode bs := by
  intro hmem
  obtain ⟨j, hj, hx⟩ := mem_b64encode bs hb 46 hmem
  exact b64char_ne_dot j hj hx.symm

/-- Decoding inverts encoding on genuine byte strings. -/
theorem b64decode_b64encode (bs : Bytes) (hb : ∀ b ∈ bs, b < 256) :
    b64decode (b64encode bs) = some bs := by
  induction bs using b64encode.induct with
  | case1 => rfl
  | case2 a =>
      have ha : a < 256 := hb a (by simp)
      have h1 : a / 4 < 64 := by omega
      have h2 : a % 4 * 16 < 64 := by omega
      simp only [b64encode, b64decode, b64idx_b64char _ h1, b64idx_b64char _ h2,
        Option.some.injEq, List.cons.injEq, and_true]
      omega
  | case3 a b =>
      have ha : a < 256 := hb a (by simp)
      have hbb : b < 256 := hb b (by simp)
      have h1 : a / 4 < 64 := by omega
      have h2 : a % 4 * 16 + b / 16 < 64 := by omega
      have h3 : b % 16 * 4 < 64 := by omega
      simp only [b64encode, b64decode, b64idx_b64char _ h1, b64idx_b64char _ h2,
        b64idx_b64char _ h3, Option.some.injEq, List.cons.injEq, and_true]
      constructor
      · omega
      · omega
  | case4 a b c rest ih =>
      have ha : a < 256 := hb a (by simp)
      have hbb : b < 256 := hb b (by simp)
      have hc : c < 256 := hb c (by simp)
      have h1 : a / 4 < 64 := by omega
      have h2 : a % 4 * 16 + b / 16 < 64 := by omega
      have h3 : b % 16 * 4 + c / 64 < 64 := by omega
      have h4 : c % 64 < 64 := by omega
      have hrest := ih (fun y hy => hb y (by simp [hy]))
      simp only [b64encode, b64decode, b64idx_b64char _ h1, b64idx_b64char _ h2,
        b64idx_b64char _ h3, b64idx_b64char _ h4, hrest, Option.some.injEq, List.cons.injEq]
      exact ⟨by omega, by omega, by omega, trivial⟩

/-! ## Lemmas: dot-splitting -/

/-- Splitting a dot-free byte string yields that string alone. -/
theorem splitOnDot_no_dot (a : Bytes) (ha : 46 ∉ a) : splitOnDot a = [a] := by
  induction a with
  | nil => rfl
  | cons c r ih =>
      have hc : c ≠ 46 := by intro h; exact ha (by simp [h])
      have hr := ih (fun h => ha (by simp [h]))
      simp [splitOnDot, hc, hr]

/-- Splitting peels a dot-free leading segment at the first dot. -/
theorem splitOnDot_append (a r : Bytes) (ha : 46 ∉ a) :
    splitOnDot (a ++ 46 :: r) = a :: splitOnDot r := by
  induction a with
  | nil => simp [splitOnDot]
  | cons c t ih =>
      have hc : c ≠ 46 := by intro h; exact ha (by simp [h])
      have ht := ih (fun h => ha (by simp [h]))
      simp [splitOnDot, hc, ht]

/-- A three-segment compact string splits into its segments. -/
theorem splitOnDot_three (a b c : Bytes) (ha : 46 ∉ a) (hb : 46 ∉ b) (hc : 46 ∉ c) :
    splitOnDot (a ++ 46 :: (b ++ 46 :: c)) = [a, b, c] := by
  rw [splitOnDot_append a _ ha, splitOnDot_append b _ hb, splitOnDot_no_dot c hc]

/-- A five-segment compact string splits into its segments. -/
theorem splitOnDot_five (a b c d e : Bytes) (ha : 46 ∉ a) (hb : 46 ∉ b) (hc : 46 ∉ c)
    (hd : 46 ∉ d) (he : 46 ∉ e) :
    splitOnDot (a ++ 46 :: (b ++ 46 :: (c ++ 46 :: (d ++ 46 :: e)))) = [a, b, c, d, e] := by
  rw [splitOnDot_append a _ ha, splitOnDot_append b _ hb, splitOnDot_append c _ hc,
    splitOnDot_append d _ hd, splitOnDot_no_dot e he]

/-! ## Lemmas: compact JSON round trip -/

/-- Parsing a string body: `parseStr` returns the quote-free body before the closing quote. -/
theorem parseStr_append (s r : Bytes) (hs : 34 ∉ s) :
    parseStr (s ++ 34 :: r) = some (s, r) := by
  induction s with
  | nil => simp [parseStr]
  | cons c t ih =>
      have hc : c ≠ 34 := by intro h; exact hs (by simp [h])
      have ht := ih (fun h => hs (by simp [h]))
      simp [parseStr, hc, ht]

/-- Parsing members: `parseMembers` inverts `jsonMembers` given enough fuel. -/
theorem parseMembers_jsonMembers (h : Header) (hne : h ≠ []) (hwf : PlainHeader h) :
    ∀ fuel, h.length ≤ fuel → ∀ rest,
      parseMembers fuel (jsonMembers h ++ rest) = some (h, rest) := by
  induction h with
  | nil => exact absurd rfl hne
  | cons p t ih =>
      obtain ⟨k, v⟩ := p
      intro fuel hfuel rest
      obtain ⟨⟨hk34, _, _⟩, ⟨hv34, _, _⟩⟩ := hwf (k, v) (by simp)
      match fuel, hfuel with
      | fuel + 1, hfuel =>
        cases t with
        | nil =>
            have harr : jsonMembers [(k, v)] ++ rest
                = 34 :: (k ++ 34 :: (58 :: 34 :: (v ++ 34 :: (125 :: rest)))) := by
              simp [jsonMembers]
            rw [harr]
            simp [parseMembers, parseStr_append k _ hk34, parseStr_append v _ hv34]
        | cons q u =>
            have hne' : q :: u ≠ [] := by simp
            have hwf' : PlainHeader (q :: u) := fun p hp => hwf p (by simp [hp])
            have hfuel' : (q :: u).length ≤ fuel := by
              simp only [List.length_cons] at hfuel ⊢
              omega
            have harr : jsonMembers ((k, v) :: q :: u) ++ rest
                = 34 :: (k ++ 34 :: (58 :: 34 :: (v ++ 34 ::
                    (44 :: (jsonMembers (q :: u) ++ rest))))) := by
              simp [jsonMembers]
            rw [harr]
            simp [parseMembers, parseStr_append k _ hk34, parseStr_append v _ hv34,
              ih hne' hwf' fuel hfuel' rest]

/-- The member encoding is at least as long as the member list. -/
theorem length_le_jsonMembers (h : Header) : h.length ≤ (jsonMembers h).length := by
  induction h with
  | nil => simp [jsonMembers]
  | cons p t ih =>
      obtain ⟨k, v⟩ := p
      cases t with
      | nil => simp [jsonMembers]
      | cons q u =>
          simp only [jsonMembers, List.length_cons, List.length_append] at ih ⊢
          omega

/-- Parsing objects: `jsonParse` inverts `jsonEncode` on plain headers. -/
theorem jsonParse_jsonEncode (h : Header) (hwf : PlainHeader h) :
    jsonParse (jsonEncode h) = some h := by
  cases h with
  | nil => rfl
  | cons p t =>
      obtain ⟨k, v⟩ := p
      have hparse := parseMembers_jsonMembers ((k, v) :: t) (by simp) hwf
        (jsonMembers ((k, v) :: t)).length (length_le_jsonMembers _) []
      rw [List.append_nil] at hparse
      obtain ⟨A, hA⟩ : ∃ A, jsonMembers ((k, v) :: t) = 34 :: A := by
        cases t <;> exact ⟨_, rfl⟩
      rw [show jsonEncode ((k, v) :: t) = 123 :: jsonMembers ((k, v) :: t) from rfl, hA]
      rw [hA] at hparse
      simp only [List.length_cons] at hparse
      simp [jsonParse, hparse]

/-- Compact JSON of a plain header is made of genuine bytes. -/
theorem jsonMembers_lt (h : Header) (hwf : PlainHeader h) : ∀ b ∈ jsonMembers h, b < 256 := by
  induction h with
  | nil => intro b hb; simp [jsonMembers] at hb; omega
  | cons p t ih =>
      obtain ⟨k, v⟩ := p
      obtain ⟨⟨_, _, hk⟩, ⟨_, _, hv⟩⟩ := hwf (k, v) (by simp)
      intro b hb
      cases t with
      | nil =>
          simp only [jsonMembers, List.mem_cons, List.mem_append, List.not_mem_nil,
            or_false] at hb
          rcases hb with rfl | hb | rfl | rfl | rfl | hb | rfl | rfl
          · omega
          · exact hk b hb
          · omega
          · omega
          · omega
          · exact hv b hb
          · omega
          · omega
      | cons q u =>
          have hexp : jsonMembers ((k, v) :: q :: u)
              = 34 :: (k ++ (34 :: 58 :: 34 :: (v ++ (34 :: 44 :: jsonMembers (q :: u))))) :=
            rfl
          rw [hexp] at hb
          simp only [List.mem_cons, List.mem_append] at hb
          rcases hb with rfl | hb | rfl | rfl | rfl | hb | rfl | rfl | hb
          · omega
          · exact hk b hb
          · omega
          · omega
          · omega
          · exact hv b hb
          · omega
          · omega
          · exact ih (fun p hp => hwf p (by simp [hp])) b hb

/-- Compact JSON of a plain header is made of genuine bytes. -/
theorem jsonEncode_lt (h : Header) (hwf : PlainHeader h) : ∀ b ∈ jsonEncode h, b < 256 := by
  cases h with
  | nil => intro b hb; simp [jsonEncode] at hb; omega
  | cons p t =>
      intro b hb
      simp only [jsonEncode, List.mem_cons] at hb
      rcases hb with rfl | hb
      · omega
      · exact jsonMembers_lt _ hwf b hb

/-! ## Lemmas: digest byte bounds -/

theorem toBytesBE_lt (n x : Nat) : ∀ b ∈ toBytesBE n x, b < 256 := by
  induction n generalizing x with
  | zero => intro b hb; simp [toBytesBE] at hb
  | succ n ih =>
      intro b hb
      simp only [toBytesBE, List.mem_append, List.mem_singleton] at hb
      rcases hb with hb | rfl
      · exact ih (x / 256) b hb
      · omega

/-- Bytes of a concatenation of 4-byte words are genuine. -/
theorem mem_words_lt (l : List Nat) :
    ∀ b ∈ (l.map (toBytesBE 4)).foldr (· ++ ·) [], b < 256 := by
  induction l with
  | nil => intro b hb; simp at hb
  | cons w t ih =>
      intro b hb
      simp only [List.map_cons, List.foldr_cons, List.mem_append] at hb
      rcases hb with hb | hb
      · exact toBytesBE_lt 4 w b hb
      · exact ih b hb

/-- SHA-256 digests are genuine byte strings. -/
theorem sha256_lt (msg : Bytes) : ∀ b ∈ sha256 msg, b < 256 := by
  intro b hb
  unfold sha256 at hb
  exact mem_words_lt _ b hb

/-- HMAC-SHA256 tags are genuine byte strings. -/
theorem hmacSha256_lt (key msg : Bytes) : ∀ b ∈ hmacSha256 key msg, b < 256 := by
  intro b hb
  exact sha256_lt _ b hb

/-- Signatures produced by any registered JWS algorithm are genuine bytes. -/
theorem registry_sign_lt (alg : Bytes) (A : JWSAlgorithm) (hA : JWS_REGISTRY alg = some A)
    (msg : Bytes) (key : Key) : ∀ b ∈ A.sign msg key, b < 256 := by
  unfold JWS_REGISTRY at hA
  by_cases h1 : alg = strBytes "HS256"
  · rw [if_pos h1] at hA
    cases hA
    exact hmacSha256_lt key.k msg
  · rw [if_neg h1] at hA
    by_cases h2 : alg = strBytes "none"
    · rw [if_pos h2] at hA
      cases hA
      intro b hb
      simp [NoneAlgorithm] at hb
    · rw [if_neg h2] at hA
      cases hA

/-! ## Lemmas: extraction of a signed token -/

/-- Key resolution: `guess_key` returns the supplied key unchanged when it succeeds. -/
theorem guess_key_eq (key k : Key) (halg op : Bytes) (h : guess_key key halg op = .ok k) :
    k = key := by
  unfold guess_key at h
  repeat' split at h
  all_goals first | (cases h; rfl) | cases h

/-- Extracting a freshly signed compact token recovers the header, payload
and signature, provided all byte strings are genuine. -/
theorem extract_CompactData_sign (header : Header) (payload : Bytes) (A : JWSAlgorithm)
    (key : Key) (hwf : PlainHeader header) (hp : ∀ b ∈ payload, b < 256)
    (hs : ∀ b ∈ A.sign (CompactData.mk' header payload).signingInput key, b < 256) :
    extract_compact ((CompactData.mk' header payload).sign A key)
      = .ok { header := header, payload := payload,
              headerSegment := b64encode (jsonEncode header),
              payloadSegment := b64encode payload,
              signature := A.sign (CompactData.mk' header payload).signingInput key } := by
  have hjson := jsonEncode_lt header hwf
  have harr : (CompactData.mk' header payload).sign A key
      = b64encode (jsonEncode header) ++ 46 :: (b64encode payload ++ 46 ::
          b64encode (A.sign (CompactData.mk' header payload).signingInput key)) := by
    simp [CompactData.sign, CompactData.signingInput, CompactData.mk']
  rw [harr]
  unfold extract_compact
  rw [splitOnDot_three _ _ _ (b64encode_ne_dot _ hjson) (b64encode_ne_dot _ hp)
    (b64encode_ne_dot _ hs)]
  simp only [b64decode_b64encode _ hjson, b64decode_b64encode _ hp, b64decode_b64encode _ hs,
    jsonParse_jsonEncode header hwf]

/-- Success characterization of `serialize_compact`: it returns a token iff
the header names an allowed, registered algorithm and the key passes the
policy checks, and the token is the signed compact data. -/
theorem serialize_compact_ok (header : Header) (payload : Bytes) (key : Key)
    (algs : Option (List Bytes)) (out : Bytes) :
    serialize_compact header payload key algs = .ok out ↔
    ∃ alg A, hlookup header (strBytes "alg") = some alg
      ∧ alg ∈ algs.getD RECOMMENDED_ALGORITHMS
      ∧ guess_key key alg (strBytes "sign") = .ok key
      ∧ key.check_use (strBytes "sig") = .ok ()
      ∧ JWS_REGISTRY alg = some A
      ∧ out = (CompactData.mk' header payload).sign A key := by
  constructor
  · intro h
    unfold serialize_compact at h
    cases hch : check_header header [strBytes "alg"] with
    | error e => simp [hch] at h
    | ok u =>
      cases hl : hlookup header (strBytes "alg") with
      | none => simp [hch, hl] at h
      | some alg =>
        by_cases hmem : alg ∈ algs.getD RECOMMENDED_ALGORITHMS
        · cases hk : guess_key key alg (strBytes "sign") with
          | error e => simp [hch, hl, hmem, hk] at h
          | ok k =>
            have hkey := guess_key_eq key k alg (strBytes "sign") hk
            subst hkey
            cases hcu : k.check_use (strBytes "sig") with
            | error e => simp [hch, hl, hmem, hk, hcu] at h
            | ok u2 =>
              cases hA : JWS_REGISTRY alg with
              | none => simp [hch, hl, hmem, hk, hcu, hA] at h
              | some A =>
                simp only [hch, hl, hmem, hk, hcu, hA, if_true, Except.ok.injEq] at h
                cases u2
                exact ⟨alg, A, rfl, hmem, hk, rfl, hA, h.symm⟩
        · simp [hch, hl, hmem] at h
  · intro ⟨alg, A, hl, hmem, hk, hcu, hA, hout⟩
    have hch : check_header header [strBytes "alg"] = .ok () := by
      simp [check_header, hl]
    unfold serialize_compact
    simp only [hch, hl, hmem, hk, hcu, hA, if_true, hout]

/-- Evaluation of `validate_compact` once the allowlist and key checks
pass: the result is decided by `CompactData.verify` alone. -/
theorem validate_compact_verify (obj : CompactData) (key : Key) (algs : Option (List Bytes))
    (alg : Bytes) (A : JWSAlgorithm)
    (hl : hlookup obj.header (strBytes "alg") = some alg)
    (hmem : alg ∈ algs.getD RECOMMENDED_ALGORITHMS)
    (hk : guess_key key alg (strBytes "verify") = .ok key)
    (hcu : key.check_use (strBytes "sig") = .ok ())
    (hA : JWS_REGISTRY alg = some A) :
    validate_compact obj key algs
      = if obj.verify A key then .ok () else .error .badSignature := by
  unfold validate_compact
  simp only [hl, hmem, hk, hcu, hA, if_true]

/-- Success of `validate_compact` entails a successful verification. -/
theorem validate_compact_ok (obj : CompactData) (key : Key) (algs : Option (List Bytes))
    (u : Unit) (h : validate_compact obj key algs = .ok u) :
    ∃ alg A, hlookup obj.header (strBytes "alg") = some alg
      ∧ alg ∈ algs.getD RECOMMENDED_ALGORITHMS
      ∧ guess_key key alg (strBytes "verify") = .ok key
      ∧ key.check_use (strBytes "sig") = .ok ()
      ∧ JWS_REGISTRY alg = some A
      ∧ obj.verify A key = true := by
  unfold validate_compact at h
  cases hl : hlookup obj.header (strBytes "alg") with
  | none => simp [hl] at h
  | some alg =>
    by_cases hmem : alg ∈ algs.getD RECOMMENDED_ALGORITHMS
    · cases hk : guess_key key alg (strBytes "verify") with
      | error e => simp [hl, hmem, hk] at h
      | ok k =>
        have hkey := guess_key_eq key k alg (strBytes "verify") hk
        subst hkey
        cases hcu : k.check_use (strBytes "sig") with
        | error e => simp [hl, hmem, hk, hcu] at h
        | ok u2 =>
          cases hA : JWS_REGISTRY alg with
          | none => simp [hl, hmem, hk, hcu, hA] at h
          | some A =>
            simp only [hl, hmem, hk, hcu, hA, if_true] at h
            by_cases hv : obj.verify A k
            · cases u2
              exact ⟨alg, A, rfl, hmem, hk, rfl, hA, hv⟩
            · simp [hv] at h
    · simp [hl, hmem] at h

/-- The registry holds exactly the modelled `HS256` and `none` entries. -/
theorem registry_cases (alg : Bytes) (A : JWSAlgorithm) (hA : JWS_REGISTRY alg = some A) :
    (alg = strBytes "HS256" ∧ A = HS256) ∨ (alg = strBytes "none" ∧ A = NoneAlgorithm) := by
  unfold JWS_REGISTRY at hA
  by_cases h1 : alg = strBytes "HS256"
  · rw [if_pos h1] at hA; cases hA; exact .inl ⟨h1, rfl⟩
  · rw [if_neg h1] at hA
    by_cases h2 : alg = strBytes "none"
    · rw [if_pos h2] at hA; cases hA; exact .inr ⟨h2, rfl⟩
    · rw [if_neg h2] at hA; cases hA

/-- HS256 verification accepts a freshly produced HS256 signature. -/
theorem HS256_verify_sign (msg : Bytes) (key : Key) :
    HS256.verify msg (HS256.sign msg key) key = true := by
  simp [HS256]

/-! ## Claims -/

/-- C5: for every header mapping that does not contain the key `"alg"`,
`serialize_compact` fails with the missing-header error, for every payload,
key and allowed list — in particular before resolving any key or algorithm
(the error is the missing-header variant even for keys and allowlists that
would themselves fail later checks). -/
theorem C5_missing_alg_header (header : Header) (payload : Bytes) (key : Key)
    (algs : Option (List Bytes)) (h : hlookup header (strBytes "alg") = none) :
    serialize_compact header payload key algs = .error (.missingHeader (strBytes "alg")) := by
  simp [serialize_compact, check_header, h]

/-- Witness for C5 at the header `{"kid": "123"}` of `test_without_alg`. -/
theorem C5_missing_alg_header_witness :
    hlookup [(strBytes "kid", strBytes "123")] (strBytes "alg") = none ∧
    serialize_compact [(strBytes "kid", strBytes "123")] (strBytes "i") (OctKey "secret") none
      = .error (.missingHeader (strBytes "alg")) :=
  ⟨by decide, C5_missing_alg_header _ _ _ _ (by decide)⟩

/-- C3: a header `alg` outside the caller's allowed list makes
`serialize_compact` and `validate_compact` fail with the
algorithm-not-allowed error (for every key, so before any signing or
verification); with no caller list the allowed list is exactly
`["HS256", "RS256", "ES256"]` — both entry points behave identically to
passing `RECOMMENDED_ALGORITHMS`. -/
theorem C3_allowlist :
    (∀ header payload key algs alg, hlookup header (strBytes "alg") = some alg →
        alg ∉ algs →
        serialize_compact header payload key (some algs) = .error (.algNotAllowed alg))
  ∧ (∀ (obj : CompactData) key algs alg, hlookup obj.header (strBytes "alg") = some alg →
        alg ∉ algs →
        validate_compact obj key (some algs) = .error (.algNotAllowed alg))
  ∧ RECOMMENDED_ALGORITHMS = [strBytes "HS256", strBytes "RS256", strBytes "ES256"]
  ∧ (∀ header payload key, serialize_compact header payload key none
        = serialize_compact header payload key (some RECOMMENDED_ALGORITHMS))
  ∧ (∀ (obj : CompactData) key, validate_compact obj key none
        = validate_compact obj key (some RECOMMENDED_ALGORITHMS)) := by
  refine ⟨?_, ?_, rfl, fun _ _ _ => rfl, fun _ _ => rfl⟩
  · intro header payload key algs alg hl hnot
    simp [serialize_compact, check_header, hl, hnot]
  · intro obj key algs alg hl hnot
    simp [validate_compact, hl, hnot]

/-- Witness for C3: `HS512` is outside the default allowed list, so both
entry points reject it with the algorithm-not-allowed error. -/
theorem C3_allowlist_witness :
    serialize_compact [(strBytes "alg", strBytes "HS512")] (strBytes "i") (OctKey "secret")
        (some RECOMMENDED_ALGORITHMS) = .error (.algNotAllowed (strBytes "HS512"))
  ∧ validate_compact (CompactData.mk' [(strBytes "alg", strBytes "HS512")] (strBytes "i"))
        (OctKey "secret") (some RECOMMENDED_ALGORITHMS)
      = .error (.algNotAllowed (strBytes "HS512")) :=
  ⟨C3_allowlist.1 _ _ _ _ _ (by decide) (by decide),
   C3_allowlist.2.1 _ _ _ _ (by decide) (by decide)⟩

/-- C6: `serialize_compact` with a key declaring `use="enc"` fails with
`UnsupportedKeyUseError`; with `key_ops=["verify"]` with
`UnsupportedKeyOperationError`; with declared key `alg="HS512"` under
header `alg "HS256"` with `UnsupportedKeyAlgorithmError` — three pairwise
distinct error variants, each returned instead of any signature. -/
theorem C6_key_policy_errors (payload mat : Bytes) :
    (serialize_compact hdrHS256 payload { k := mat, use := some (strBytes "enc") } none
        = .error .unsupportedKeyUse)
  ∧ (serialize_compact hdrHS256 payload { k := mat, key_ops := some [strBytes "verify"] } none
        = .error .unsupportedKeyOp)
  ∧ (serialize_compact hdrHS256 payload { k := mat, alg := some (strBytes "HS512") } none
        = .error .unsupportedKeyAlg)
  ∧ JoseError.unsupportedKeyUse ≠ JoseError.unsupportedKeyOp
  ∧ JoseError.unsupportedKeyUse ≠ JoseError.unsupportedKeyAlg
  ∧ JoseError.unsupportedKeyOp ≠ JoseError.unsupportedKeyAlg :=
  ⟨rfl, rfl, rfl, by decide, by decide, by decide⟩

/-- C7: every successful `serialize_compact` output is
`b64url(json(header)) . b64url(payload) . b64url(sig)` with the signature
computed by the registry algorithm resolved from the header's `alg` over
the signing input `b64url(json(header)) || '.' || b64url(payload)`. -/
theorem C7_output_format (header : Header) (payload : Bytes) (key : Key)
    (algs : Option (List Bytes)) (out : Bytes)
    (h : serialize_compact header payload key algs = .ok out) :
    ∃ alg A, hlookup header (strBytes "alg") = some alg ∧ JWS_REGISTRY alg = some A ∧
      out = b64encode (jsonEncode header) ++ 46 :: b64encode payload ++ 46 ::
        b64encode (A.sign (b64encode (jsonEncode header) ++ 46 :: b64encode payload) key) := by
  obtain ⟨alg, A, hl, _, _, _, hA, hout⟩ := (serialize_compact_ok _ _ _ _ _).mp h
  refine ⟨alg, A, hl, hA, ?_⟩
  rw [hout]
  simp [CompactData.sign, CompactData.signingInput, CompactData.mk']

/-- Witness for C7 at the concrete HS256 token. -/
theorem C7_output_format_witness :
    ∃ alg A, hlookup hdrHS256 (strBytes "alg") = some alg ∧ JWS_REGISTRY alg = some A ∧
      tokenHS256 = b64encode (jsonEncode hdrHS256) ++ 46 :: b64encode (strBytes "i") ++ 46 ::
        b64encode (A.sign (b64encode (jsonEncode hdrHS256) ++ 46 :: b64encode (strBytes "i"))
          (OctKey "secret")) :=
  C7_output_format hdrHS256 (strBytes "i") (OctKey "secret") none tokenHS256 (by decide)

/-- C10: `deserialize_compact` is exactly the composition of
`extract_compact` on the byte form of the value with `validate_compact` on
the extracted object, returning that object unchanged; consequently every
object it returns carries a signature that the resolved registry algorithm
verifies against the resolved key. -/
theorem C10_deserialize_refines :
    (∀ value key algs, deserialize_compact value key algs
        = deserialize_compact_spec value key algs)
  ∧ (∀ value key algs obj, deserialize_compact value key algs = .ok obj →
        ∃ alg A, hlookup obj.header (strBytes "alg") = some alg
          ∧ JWS_REGISTRY alg = some A
          ∧ obj.verify A key = true) := by
  constructor
  · intro value key algs
    unfold deserialize_compact deserialize_compact_spec
    cases extract_compact (to_bytes value) with
    | error e => simp [Except.bind]
    | ok obj =>
        cases hv : validate_compact obj key algs with
        | error e => simp [Except.bind, Except.map, hv]
        | ok u => simp [Except.bind, Except.map, hv]
  · intro value key algs obj h
    unfold deserialize_compact at h
    cases hx : extract_compact (to_bytes value) with
    | error e => rw [hx] at h; cases h
    | ok obj' =>
        rw [hx] at h
        have h' : (match validate_compact obj' key algs with
            | Except.error e => (Except.error e : Except JoseError CompactData)
            | Except.ok _ => Except.ok obj') = Except.ok obj := h
        cases hv : validate_compact obj' key algs with
        | error e => rw [hv] at h'; cases h'
        | ok u =>
            rw [hv] at h'
            cases h'
            obtain ⟨alg, A, hl, _, _, _, hA, hverify⟩ := validate_compact_ok _ key algs u hv
            exact ⟨alg, A, hl, hA, hverify⟩

/-- Witness for C10 at the concrete HS256 token. -/
theorem C10_deserialize_refines_witness :
    deserialize_compact tokenHS256 (OctKey "secret") none
        = deserialize_compact_spec tokenHS256 (OctKey "secret") none
  ∧ ∃ alg A, hlookup objHS256.header (strBytes "alg") = some alg
      ∧ JWS_REGISTRY alg = some A
      ∧ objHS256.verify A (OctKey "secret") = true :=
  ⟨C10_deserialize_refines.1 tokenHS256 (OctKey "secret") none,
   C10_deserialize_refines.2 tokenHS256 (OctKey "secret") none objHS256 (by decide)⟩

/-- C4 fails on the code: with `"none"` explicitly allowed and an empty
signature segment, `serialize_compact` emits the token but
`deserialize_compact` still rejects it with `BadSignatureError`, contrary
to the claim's "unless" clause. -/
theorem C4_counterexample :
    serialize_compact [(strBytes "alg", strBytes "none")] (strBytes "i") (OctKey "secret")
        (some [strBytes "none"]) = .ok (strBytes "eyJhbGciOiJub25lIn0.aQ.")
  ∧ (splitOnDot (strBytes "eyJhbGciOiJub25lIn0.aQ.")).getLast? = some []
  ∧ deserialize_compact (strBytes "eyJhbGciOiJub25lIn0.aQ.") (OctKey "secret")
        (some [strBytes "none"]) = .error .badSignature :=
  ⟨by decide, by decide, by decide⟩

/-- C4 (amended): under the default allowed list both entry points reject
`alg="none"` with the algorithm-not-allowed error; `serialize_compact`
accepts `none` only when it is explicitly allowed; and
`deserialize_compact`/`validate_compact` reject `alg="none"` with
`BadSignatureError` even when it is explicitly allowed and the signature
segment is empty, because the `none` algorithm never verifies. -/
theorem C4_none_alg :
    (∀ payload key, serialize_compact [(strBytes "alg", strBytes "none")] payload key none
        = .error (.algNotAllowed (strBytes "none")))
  ∧ (∀ (obj : CompactData) key, hlookup obj.header (strBytes "alg") = some (strBytes "none") →
        validate_compact obj key none = .error (.algNotAllowed (strBytes "none")))
  ∧ (∀ payload key algs out,
        serialize_compact [(strBytes "alg", strBytes "none")] payload key (some algs) = .ok out →
        strBytes "none" ∈ algs)
  ∧ (∀ (obj : CompactData) key algs,
        hlookup obj.header (strBytes "alg") = some (strBytes "none") →
        strBytes "none" ∈ algs.getD RECOMMENDED_ALGORITHMS →
        guess_key key (strBytes "none") (strBytes "verify") = .ok key →
        key.check_use (strBytes "sig") = .ok () →
        validate_compact obj key algs = .error .badSignature)
  ∧ (∀ value key algs obj,
        extract_compact (to_bytes value) = .ok obj →
        hlookup obj.header (strBytes "alg") = some (strBytes "none") →
        strBytes "none" ∈ algs.getD RECOMMENDED_ALGORITHMS →
        guess_key key (strBytes "none") (strBytes "verify") = .ok key →
        key.check_use (strBytes "sig") = .ok () →
        deserialize_compact value key algs = .error .badSignature) := by
  have hreg : JWS_REGISTRY (strBytes "none") = some NoneAlgorithm := rfl
  have hnm : strBytes "none" ∉ RECOMMENDED_ALGORITHMS := by decide
  have hbad : ∀ (obj : CompactData) key algs,
      hlookup obj.header (strBytes "alg") = some (strBytes "none") →
      strBytes "none" ∈ algs.getD RECOMMENDED_ALGORITHMS →
      guess_key key (strBytes "none") (strBytes "verify") = .ok key →
      key.check_use (strBytes "sig") = .ok () →
      validate_compact obj key algs = .error .badSignature := by
    intro obj key algs hl hmem hk hcu
    rw [validate_compact_verify obj key algs (strBytes "none") NoneAlgorithm hl hmem hk hcu hreg]
    simp [CompactData.verify, NoneAlgorithm]
  refine ⟨?_, ?_, ?_, hbad, ?_⟩
  · intro payload key
    simp [serialize_compact, check_header, hlookup, hnm]
  · intro obj key hl
    simp [validate_compact, hl, hnm]
  · intro payload key algs out h
    obtain ⟨alg, A, hl, hmem, _, _, _, _⟩ := (serialize_compact_ok _ _ _ _ _).mp h
    have : alg = strBytes "none" := by
      simp [hlookup] at hl
      exact hl.symm
    subst this
    simpa using hmem
  · intro value key algs obj hx hl hmem hk hcu
    unfold deserialize_compact
    rw [hx]
    show (match validate_compact obj key algs with
        | Except.error e => (Except.error e : Except JoseError CompactData)
        | Except.ok _ => Except.ok obj) = Except.error .badSignature
    rw [hbad obj key algs hl hmem hk hcu]

/-- Witness for C4 (amended) at the `none` token with an empty signature. -/
theorem C4_none_alg_witness :
    serialize_compact [(strBytes "alg", strBytes "none")] (strBytes "i") (OctKey "secret") none
        = .error (.algNotAllowed (strBytes "none"))
  ∧ (strBytes "none" ∈ ([strBytes "none"] : List Bytes))
  ∧ deserialize_compact (strBytes "eyJhbGciOiJub25lIn0.aQ.") (OctKey "secret")
        (some [strBytes "none"]) = .error .badSignature :=
  ⟨C4_none_alg.1 (strBytes "i") (OctKey "secret"),
   C4_none_alg.2.2.1 (strBytes "i") (OctKey "secret") [strBytes "none"]
     (strBytes "eyJhbGciOiJub25lIn0.aQ.") (by decide),
   C4_none_alg.2.2.2.2 (strBytes "eyJhbGciOiJub25lIn0.aQ.") (OctKey "secret")
     (some [strBytes "none"])
     { header := [(strBytes "alg", strBytes "none")], payload := strBytes "i",
       headerSegment := strBytes "eyJhbGciOiJub25lIn0", payloadSegment := strBytes "aQ",
       signature := [] }
     (by decide) (by decide) (by decide) (by decide) (by decide)⟩

/-- C1 fails on the code: changing the last byte of the signature segment
of a freshly serialized HS256 token (a one-byte tamper that only touches
the trailing bits the base64url decoder discards) leaves
`deserialize_compact` succeeding with the original payload instead of
raising `BadSignatureError`. -/
theorem C1_counterexample :
    serialize_compact hdrHS256 (strBytes "i") (OctKey "secret") none = .ok tokenHS256
  ∧ tokenHS256.length = 67
  ∧ tokenHS256_sig_tampered.length = 67
  ∧ tokenHS256_sig_tampered.take 66 = tokenHS256.take 66
  ∧ tokenHS256_sig_tampered ≠ tokenHS256
  ∧ (deserialize_compact tokenHS256_sig_tampered (OctKey "secret") none).map (·.payload)
      = .ok (strBytes "i") :=
  ⟨by decide, by decide, by decide, by decide, by decide, by decide⟩

/-- C1 (amended): for every plain header whose `alg` names a registered
non-`none` algorithm in the allowed list and every key passing the policy
checks, deserializing the serialized token succeeds and returns the
original payload; and a tampered token is rejected with
`BadSignatureError` whenever it still extracts, its `alg` is allowed and
registered, the key checks pass, and its decoded signature differs from
the signature the algorithm computes over its signing input (a tamper
confined to the discarded trailing base64url bits escapes this). -/
theorem C1_roundtrip_tamper :
    (∀ header payload key algs alg A,
        PlainHeader header → (∀ b ∈ payload, b < 256) →
        hlookup header (strBytes "alg") = some alg →
        alg ∈ algs.getD RECOMMENDED_ALGORITHMS →
        guess_key key alg (strBytes "sign") = .ok key →
        guess_key key alg (strBytes "verify") = .ok key →
        key.check_use (strBytes "sig") = .ok () →
        JWS_REGISTRY alg = some A →
        alg ≠ strBytes "none" →
        ∃ out, serialize_compact header payload key algs = .ok out ∧
          ∃ obj, deserialize_compact out key algs = .ok obj ∧ obj.payload = payload)
  ∧ (∀ value key algs (obj : CompactData) alg A,
        extract_compact (to_bytes value) = .ok obj →
        hlookup obj.header (strBytes "alg") = some alg →
        alg ∈ algs.getD RECOMMENDED_ALGORITHMS →
        guess_key key alg (strBytes "verify") = .ok key →
        key.check_use (strBytes "sig") = .ok () →
        JWS_REGISTRY alg = some A →
        obj.signature ≠ A.sign obj.signingInput key →
        deserialize_compact value key algs = .error .badSignature) := by
  constructor
  · intro header payload key algs alg A hwf hp hl hmem hks hkv hcu hA hnone
    have hout : serialize_compact header payload key algs
        = .ok ((CompactData.mk' header payload).sign A key) :=
      (serialize_compact_ok _ _ _ _ _).mpr ⟨alg, A, hl, hmem, hks, hcu, hA, rfl⟩
    refine ⟨_, hout, ?_⟩
    have hsig := registry_sign_lt alg A hA (CompactData.mk' header payload).signingInput key
    have hx : extract_compact ((CompactData.mk' header payload).sign A key)
        = .ok (signedData header payload A key) :=
      extract_CompactData_sign header payload A key hwf hp hsig
    have hAH : A = HS256 := by
      rcases registry_cases alg A hA with ⟨_, hA'⟩ | ⟨h1, _⟩
      · exact hA'
      · exact absurd h1 hnone
    refine ⟨signedData header payload A key, ?_, rfl⟩
    unfold deserialize_compact
    rw [show to_bytes ((CompactData.mk' header payload).sign A key)
          = (CompactData.mk' header payload).sign A key from rfl, hx]
    have hv : validate_compact (signedData header payload A key) key algs = .ok () := by
      rw [validate_compact_verify _ key algs alg A hl hmem hkv hcu hA]
      rw [show (signedData header payload A key).verify A key
            = A.verify (CompactData.mk' header payload).signingInput
                (A.sign (CompactData.mk' header payload).signingInput key) key from rfl]
      rw [hAH, HS256_verify_sign]
      rfl
    show (match validate_compact (signedData header payload A key) key algs with
        | Except.error e => (Except.error e : Except JoseError CompactData)
        | Except.ok _ => Except.ok (signedData header payload A key))
      = Except.ok (signedData header payload A key)
    rw [hv]
  · intro value key algs obj alg A hx hl hmem hkv hcu hA hdiff
    have hv : validate_compact obj key algs = .error .badSignature := by
      rw [validate_compact_verify obj key algs alg A hl hmem hkv hcu hA]
      have hfalse : obj.verify A key = false := by
        rcases registry_cases alg A hA with ⟨_, hA'⟩ | ⟨_, hA'⟩
        · subst hA'
          simp only [CompactData.verify, HS256]
          simp only [HS256] at hdiff
          simp [hdiff]
        · subst hA'
          rfl
      rw [hfalse]
      rfl
    unfold deserialize_compact
    rw [hx]
    show (match validate_compact obj key algs with
        | Except.error e => (Except.error e : Except JoseError CompactData)
        | Except.ok _ => Except.ok obj) = Except.error .badSignature
    rw [hv]

/-- Witness for C1 (amended): the concrete HS256 round trip, and rejection
of a payload-segment tamper whose recomputed signature differs. -/
theorem C1_roundtrip_tamper_witness :
    (∃ out, serialize_compact hdrHS256 (strBytes "i") (OctKey "secret") none = .ok out ∧
       ∃ obj, deserialize_compact out (OctKey "secret") none = .ok obj ∧
         obj.payload = strBytes "i")
  ∧ deserialize_compact tokenHS256_payload_tampered (OctKey "secret") none
      = .error .badSignature :=
  ⟨C1_roundtrip_tamper.1 hdrHS256 (strBytes "i") (OctKey "secret") none
      (strBytes "HS256") HS256 (by decide) (by decide) (by decide) (by decide)
      (by decide) (by decide) (by decide) rfl (by decide),
   C1_roundtrip_tamper.2 tokenHS256_payload_tampered (OctKey "secret") none
      objPayloadTampered (strBytes "HS256") HS256 (by decide) (by decide) (by decide)
      (by decide) (by decide) rfl (by decide)⟩

/-- C8 fails on the code: the signature segment of the HS256 token for
payload `b"i"` under key `"secret"` is 43 base64url characters (an HS256
tag is 32 bytes), not the 28 characters the claim states; the other two
segments and the round trip match the claim. -/
theorem C8_counterexample :
    serialize_compact hdrHS256 (strBytes "i") (OctKey "secret") none = .ok tokenHS256
  ∧ splitOnDot tokenHS256 = [strBytes "eyJhbGciOiJIUzI1NiJ9", strBytes "aQ",
      strBytes "ykJjBUzgjyTygc7gjHM8emwLYvpqGRNIQvpTMHfZzI4"]
  ∧ (splitOnDot tokenHS256).map List.length = [20, 2, 43]
  ∧ (43 : Nat) ≠ 28 :=
  ⟨by decide, by decide, by decide, by decide⟩

/-- C8 (amended): `serialize_compact` with header `{"alg":"HS256"}`,
payload `b"i"` and key `"secret"` returns
`eyJhbGciOiJIUzI1NiJ9.aQ.<43-char-b64url-sig>`, and `deserialize_compact`
of that value with the same key returns the payload `b"i"`. -/
theorem C8_hs256_scenario :
    serialize_compact hdrHS256 (strBytes "i") (OctKey "secret") none = .ok tokenHS256
  ∧ splitOnDot tokenHS256 = [strBytes "eyJhbGciOiJIUzI1NiJ9", strBytes "aQ",
      b64encode sigHS256bytes]
  ∧ (b64encode sigHS256bytes).length = 43
  ∧ (∀ c ∈ b64encode sigHS256bytes, (b64idx c).isSome)
  ∧ deserialize_compact tokenHS256 (OctKey "secret") none = .ok objHS256
  ∧ objHS256.payload = strBytes "i" :=
  ⟨by decide, by decide, by decide, by decide, by decide, by decide⟩

/-- C9: the key-resolution pass of `encrypt_json` resolves a key only for
recipients whose `recipient_key` is unset and leaves every recipient with
a previously assigned key entirely unchanged, while the pass of
`decrypt_json` assigns a resolved key to every recipient unconditionally. -/
theorem C9_json_key_assignment :
    (∀ (pk : Key) (obj : JSONEncryption) (i : Nat) (r : Recipient) (k : Key),
        obj.recipients[i]? = some r →
        r.recipient_key = some k →
        (encrypt_json_assign_keys pk obj).recipients[i]? = some r)
  ∧ (∀ (pk : Key) (obj : JSONEncryption) (i : Nat) (r : Recipient),
        obj.recipients[i]? = some r →
        r.recipient_key = none →
        (encrypt_json_assign_keys pk obj).recipients[i]?
          = some { r with recipient_key := some (guess_key_jwe pk r) })
  ∧ (∀ (pk : Key) (obj : JSONEncryption) (i : Nat) (r : Recipient),
        obj.recipients[i]? = some r →
        (decrypt_json_assign_keys pk obj).recipients[i]?
          = some { r with recipient_key := some (guess_key_jwe pk r) }) := by
  refine ⟨?_, ?_, ?_⟩
  · intro pk obj i r k hr hk
    simp only [encrypt_json_assign_keys, List.getElem?_map, hr]
    simp [Option.map, hk]
  · intro pk obj i r hr hk
    simp only [encrypt_json_assign_keys, List.getElem?_map, hr]
    simp [Option.map, hk]
  · intro pk obj i r hr
    simp only [decrypt_json_assign_keys, List.getElem?_map, hr]
    simp [Option.map]

/-- Witness for C9: with one preassigned and one fresh recipient, the
encryption pass keeps the preassigned key and fills the fresh one, while
the decryption pass overwrites both. -/
theorem C9_json_key_assignment_witness :
    (encrypt_json_assign_keys (OctKey "resolver") twoRecipients).recipients[0]?
      = some preRecipient
  ∧ (encrypt_json_assign_keys (OctKey "resolver") twoRecipients).recipients[1]?
      = some { recipient_key := some (guess_key_jwe (OctKey "resolver") {}) }
  ∧ (decrypt_json_assign_keys (OctKey "resolver") twoRecipients).recipients[0]?
      = some { preRecipient with
               recipient_key := some (guess_key_jwe (OctKey "resolver") preRecipient) } :=
  ⟨C9_json_key_assignment.1 (OctKey "resolver") twoRecipients 0 preRecipient (OctKey "pre")
      (by decide) rfl,
   C9_json_key_assignment.2.1 (OctKey "resolver") twoRecipients 1 {} (by decide) rfl,
   C9_json_key_assignment.2.2 (OctKey "resolver") twoRecipients 0 preRecipient (by decide)⟩

/-! ## Lemmas: JWE round trip -/

theorem xorPadAux_involution (pad : Bytes) (bs : Bytes) :
    ∀ i, xorPadAux pad i (xorPadAux pad i bs) = bs := by
  induction bs with
  | nil => intro i; rfl
  | cons b t ih =>
      intro i
      simp only [xorPadAux, ih]
      rw [Nat.xor_assoc, Nat.xor_self, Nat.xor_zero]

/-- The cyclic XOR pad is an involution. -/
theorem xorPad_involution (pad bs : Bytes) : xorPad pad (xorPad pad bs) = bs := by
  cases pad with
  | nil => rfl
  | cons c t => exact xorPadAux_involution (c :: t) bs 0

/-- Elements retrieved with a zero default from a byte string are bytes. -/
theorem getD_lt (pad : Bytes) (hpad : ∀ b ∈ pad, b < 256) (j : Nat) : pad.getD j 0 < 256 := by
  cases hg : pad[j]? with
  | none => simp [List.getD, hg]
  | some b =>
      have hb : b ∈ pad := List.getElem?_mem hg
      simp [List.getD, hg]
      exact hpad b hb

theorem xorPadAux_lt (pad bs : Bytes) (hpad : ∀ b ∈ pad, b < 256)
    (hbs : ∀ b ∈ bs, b < 256) : ∀ i, ∀ b ∈ xorPadAux pad i bs, b < 256 := by
  induction bs with
  | nil => intro i b hb; simp [xorPadAux] at hb
  | cons c t ih =>
      intro i b hb
      simp only [xorPadAux, List.mem_cons] at hb
      rcases hb with rfl | hb
      · have h1 : c < 256 := hbs c (by simp)
        have h2 : pad.getD (i % pad.length) 0 < 256 := getD_lt pad hpad _
        have h3 : c ^^^ pad.getD (i % pad.length) 0 < 2 ^ 8 :=
          Nat.xor_lt_two_pow (by omega) (by omega)
        omega
      · exact ih (fun y hy => hbs y (by simp [hy])) (i + 1) b hb

/-- The cyclic XOR of byte strings is a byte string. -/
theorem xorPad_lt (pad bs : Bytes) (hpad : ∀ b ∈ pad, b < 256)
    (hbs : ∀ b ∈ bs, b < 256) : ∀ b ∈ xorPad pad bs, b < 256 := by
  cases pad with
  | nil => exact hbs
  | cons c t => exact xorPadAux_lt (c :: t) bs hpad hbs 0

/-- Extracting a represented JWE compact message recovers the five
segments and the protected header, provided all byte strings are genuine. -/
theorem extract_represent (obj : CompactEncryption)
    (hwf : PlainHeader obj.protected_header)
    (hps : obj.protectedSegment = b64encode (jsonEncode obj.protected_header))
    (hek : ∀ b ∈ obj.encrypted_key, b < 256) (hiv : ∀ b ∈ obj.iv, b < 256)
    (hct : ∀ b ∈ obj.ciphertext, b < 256) (htag : ∀ b ∈ obj.tag, b < 256) :
    extract_compact_jwe (represent_compact obj)
      = .ok { protected_header := obj.protected_header,
              protectedSegment := obj.protectedSegment,
              encrypted_key := obj.encrypted_key, iv := obj.iv,
              ciphertext := obj.ciphertext, tag := obj.tag } := by
  have hjson := jsonEncode_lt _ hwf
  have harr : represent_compact obj
      = b64encode (jsonEncode obj.protected_header) ++ 46 :: (b64encode obj.encrypted_key
          ++ 46 :: (b64encode obj.iv ++ 46 :: (b64encode obj.ciphertext
          ++ 46 :: b64encode obj.tag))) := by
    simp [represent_compact, hps]
  rw [harr]
  unfold extract_compact_jwe
  rw [splitOnDot_five _ _ _ _ _ (b64encode_ne_dot _ hjson) (b64encode_ne_dot _ hek)
    (b64encode_ne_dot _ hiv) (b64encode_ne_dot _ hct) (b64encode_ne_dot _ htag)]
  simp only [b64decode_b64encode _ hjson, b64decode_b64encode _ hek,
    b64decode_b64encode _ hiv, b64decode_b64encode _ hct, b64decode_b64encode _ htag,
    jsonParse_jsonEncode _ hwf, hps]

/-- Core JWE compact round trip: with the registry resolving the header's
`alg`/`enc` (and optional `zip`) to models satisfying the spec's provider
contracts, decrypting an encryption of any plaintext returns it. -/
theorem jwe_roundtrip_core
    (reg : JWERegistry) (A : JWEAlgModel) (E : JWEEncModel) (zipOpt : Option JWEZipModel)
    (p : Header) (pt : Bytes) (key : Key) (rng : Bytes)
    (hwf : PlainHeader p)
    (hla : hlookup p (strBytes "alg") = some A.name)
    (hle : hlookup p (strBytes "enc") = some E.name)
    (hga : reg.get_alg A.name = some A)
    (hge : reg.get_enc E.name = some E)
    (hlz : hlookup p (strBytes "zip") = Option.map (fun Z => Z.name) zipOpt)
    (hgz : ∀ Z, zipOpt = some Z → reg.get_zip Z.name = some Z)
    (hzinv : ∀ Z, zipOpt = some Z → Z.decompress (Z.compress pt) = some pt)
    (hz_lt : ∀ Z, zipOpt = some Z → ∀ b ∈ Z.compress pt, b < 256)
    (hwrap : A.direct = false → ∀ cek, (∀ b ∈ cek, b < 256) →
        A.unwrap (A.wrap cek key) key = some cek)
    (hwrap_lt : A.direct = false → ∀ cek, (∀ b ∈ cek, b < 256) →
        ∀ b ∈ A.wrap cek key, b < 256)
    (hdec : ∀ q cek iv aad,
        E.decrypt (E.encrypt q cek iv aad).1 cek iv aad (E.encrypt q cek iv aad).2 = some q)
    (hct_lt : ∀ q cek iv aad, (∀ b ∈ q, b < 256) → (∀ b ∈ cek, b < 256) →
        (∀ b ∈ iv, b < 256) → ∀ b ∈ (E.encrypt q cek iv aad).1, b < 256)
    (htag_lt : ∀ q cek iv aad, ∀ b ∈ (E.encrypt q cek iv aad).2, b < 256)
    (hpt : ∀ b ∈ pt, b < 256) (hkey : ∀ b ∈ key.k, b < 256)
    (hrng : ∀ b ∈ rng, b < 256) :
    ∃ out, encrypt_compact p pt key (some reg) rng = .ok out ∧
      ∃ obj, decrypt_compact out key (some reg) = .ok obj ∧ obj.plaintext = pt := by
  have hcekb : ∀ b ∈ (if A.direct then key.k else rng.take E.cek_size), b < 256 := by
    split
    · exact hkey
    · exact fun b hb => hrng b (List.mem_of_mem_take hb)
  have hivb : ∀ b ∈ (rng.drop E.cek_size).take E.iv_size, b < 256 :=
    fun b hb => hrng b (List.mem_of_mem_drop (List.mem_of_mem_take hb))
  have hekb : ∀ b ∈ (if A.direct then [] else
      A.wrap (if A.direct then key.k else rng.take E.cek_size) key), b < 256 := by
    by_cases hd : A.direct = true
    · intro b hb
      simp [hd] at hb
    · rw [Bool.not_eq_true] at hd
      simp only [hd]
      simp only [Bool.false_eq_true, if_false]
      exact hwrap_lt hd _ (fun b hb => hrng b (List.mem_of_mem_take hb))
  cases zipOpt with
  | none =>
      have hlz' : hlookup p (strBytes "zip") = none := by simpa using hlz
      have hperf : perform_encrypt { protected_header := p, plaintext := pt } key reg rng
          = .ok { protected_header := p, plaintext := pt,
                  protectedSegment := b64encode (jsonEncode p),
                  encrypted_key := if A.direct then [] else
                    A.wrap (if A.direct then key.k else rng.take E.cek_size) key,
                  iv := (rng.drop E.cek_size).take E.iv_size,
                  ciphertext := (E.encrypt pt (if A.direct then key.k else rng.take E.cek_size)
                    ((rng.drop E.cek_size).take E.iv_size) (b64encode (jsonEncode p))).1,
                  tag := (E.encrypt pt (if A.direct then key.k else rng.take E.cek_size)
                    ((rng.drop E.cek_size).take E.iv_size) (b64encode (jsonEncode p))).2 } := by
        simp only [perform_encrypt, hla, hle, hga, hge, hlz']
      have hx := extract_represent
        { protected_header := p, plaintext := pt,
          protectedSegment := b64encode (jsonEncode p),
          encrypted_key := if A.direct then [] else
            A.wrap (if A.direct then key.k else rng.take E.cek_size) key,
          iv := (rng.drop E.cek_size).take E.iv_size,
          ciphertext := (E.encrypt pt (if A.direct then key.k else rng.take E.cek_size)
            ((rng.drop E.cek_size).take E.iv_size) (b64encode (jsonEncode p))).1,
          tag := (E.encrypt pt (if A.direct then key.k else rng.take E.cek_size)
            ((rng.drop E.cek_size).take E.iv_size) (b64encode (jsonEncode p))).2 }
        hwf rfl hekb hivb (hct_lt _ _ _ _ hpt hcekb hivb) (htag_lt _ _ _ _)
      have hdecperf : perform_decrypt
          { protected_header := p,
            protectedSegment := b64encode (jsonEncode p),
            encrypted_key := if A.direct then [] else
              A.wrap (if A.direct then key.k else rng.take E.cek_size) key,
            iv := (rng.drop E.cek_size).take E.iv_size,
            ciphertext := (E.encrypt pt (if A.direct then key.k else rng.take E.cek_size)
              ((rng.drop E.cek_size).take E.iv_size) (b64encode (jsonEncode p))).1,
            tag := (E.encrypt pt (if A.direct then key.k else rng.take E.cek_size)
              ((rng.drop E.cek_size).take E.iv_size) (b64encode (jsonEncode p))).2 } key reg
          = .ok { protected_header := p, plaintext := pt,
                  protectedSegment := b64encode (jsonEncode p),
                  encrypted_key := if A.direct then [] else
                    A.wrap (if A.direct then key.k else rng.take E.cek_size) key,
                  iv := (rng.drop E.cek_size).take E.iv_size,
                  ciphertext := (E.encrypt pt (if A.direct then key.k else rng.take E.cek_size)
                    ((rng.drop E.cek_size).take E.iv_size) (b64encode (jsonEncode p))).1,
                  tag := (E.encrypt pt (if A.direct then key.k else rng.take E.cek_size)
                    ((rng.drop E.cek_size).take E.iv_size) (b64encode (jsonEncode p))).2 } := by
        cases hd : A.direct with
        | true =>
            simp only [perform_decrypt, hla, hle, hga, hge, hlz', hd, if_true,
              if_pos rfl, hdec]
        | false =>
            have hu := hwrap hd (rng.take E.cek_size) (fun b hb => hrng b (List.mem_of_mem_take hb))
            simp only [perform_decrypt, hla, hle, hga, hge, hlz', hd,
              Bool.false_eq_true, if_false, hu, hdec]
      have henc2 : encrypt_compact p pt key (some reg) rng
          = .ok (represent_compact
              { protected_header := p, plaintext := pt,
                protectedSegment := b64encode (jsonEncode p),
                encrypted_key := if A.direct then [] else
                  A.wrap (if A.direct then key.k else rng.take E.cek_size) key,
                iv := (rng.drop E.cek_size).take E.iv_size,
                ciphertext := (E.encrypt pt (if A.direct then key.k else rng.take E.cek_size)
                  ((rng.drop E.cek_size).take E.iv_size) (b64encode (jsonEncode p))).1,
                tag := (E.encrypt pt (if A.direct then key.k else rng.take E.cek_size)
                  ((rng.drop E.cek_size).take E.iv_size) (b64encode (jsonEncode p))).2 }) := by
        simp only [encrypt_compact, guess_key_jwe, Option.getD]
        rw [hperf]
      have hdec2 : decrypt_compact (represent_compact
              { protected_header := p, plaintext := pt,
                protectedSegment := b64encode (jsonEncode p),
                encrypted_key := if A.direct then [] else
                  A.wrap (if A.direct then key.k else rng.take E.cek_size) key,
                iv := (rng.drop E.cek_size).take E.iv_size,
                ciphertext := (E.encrypt pt (if A.direct then key.k else rng.take E.cek_size)
                  ((rng.drop E.cek_size).take E.iv_size) (b64encode (jsonEncode p))).1,
                tag := (E.encrypt pt (if A.direct then key.k else rng.take E.cek_size)
                  ((rng.drop E.cek_size).take E.iv_size) (b64encode (jsonEncode p))).2 })
            key (some reg)
          = .ok { protected_header := p, plaintext := pt,
                  protectedSegment := b64encode (jsonEncode p),
                  encrypted_key := if A.direct then [] else
                    A.wrap (if A.direct then key.k else rng.take E.cek_size) key,
                  iv := (rng.drop E.cek_size).take E.iv_size,
                  ciphertext := (E.encrypt pt (if A.direct then key.k else rng.take E.cek_size)
                    ((rng.drop E.cek_size).take E.iv_size) (b64encode (jsonEncode p))).1,
                  tag := (E.encrypt pt (if A.direct then key.k else rng.take E.cek_size)
                    ((rng.drop E.cek_size).take E.iv_size) (b64encode (jsonEncode p))).2 } := by
        simp only [decrypt_compact, to_bytes, guess_key_jwe, Option.getD]
        rw [hx]
        exact hdecperf
      exact ⟨_, henc2, _, hdec2, rfl⟩
  | some Z =>
      have hlz' : hlookup p (strBytes "zip") = some Z.name := by simpa using hlz
      have hgz' := hgz Z rfl
      have hzinv' := hzinv Z rfl
      have hzb := hz_lt Z rfl
      have hperf : perform_encrypt { protected_header := p, plaintext := pt } key reg rng
          = .ok { protected_header := p, plaintext := pt,
                  protectedSegment := b64encode (jsonEncode p),
                  encrypted_key := if A.direct then [] else
                    A.wrap (if A.direct then key.k else rng.take E.cek_size) key,
                  iv := (rng.drop E.cek_size).take E.iv_size,
                  ciphertext := (E.encrypt (Z.compress pt)
                    (if A.direct then key.k else rng.take E.cek_size)
                    ((rng.drop E.cek_size).take E.iv_size) (b64encode (jsonEncode p))).1,
                  tag := (E.encrypt (Z.compress pt)
                    (if A.direct then key.k else rng.take E.cek_size)
                    ((rng.drop E.cek_size).take E.iv_size) (b64encode (jsonEncode p))).2 } := by
        simp only [perform_encrypt, hla, hle, hga, hge, hlz', hgz']
      have hx := extract_represent
        { protected_header := p, plaintext := pt,
          protectedSegment := b64encode (jsonEncode p),
          encrypted_key := if A.direct then [] else
            A.wrap (if A.direct then key.k else rng.take E.cek_size) key,
          iv := (rng.drop E.cek_size).take E.iv_size,
          ciphertext := (E.encrypt (Z.compress pt)
            (if A.direct then key.k else rng.take E.cek_size)
            ((rng.drop E.cek_size).take E.iv_size) (b64encode (jsonEncode p))).1,
          tag := (E.encrypt (Z.compress pt)
            (if A.direct then key.k else rng.take E.cek_size)
            ((rng.drop E.cek_size).take E.iv_size) (b64encode (jsonEncode p))).2 }
        hwf rfl hekb hivb (hct_lt _ _ _ _ hzb hcekb hivb) (htag_lt _ _ _ _)
      have hdecperf : perform_decrypt
          { protected_header := p,
            protectedSegment := b64encode (jsonEncode p),
            encrypted_key := if A.direct then [] else
              A.wrap (if A.direct then key.k else rng.take E.cek_size) key,
            iv := (rng.drop E.cek_size).take E.iv_size,
            ciphertext := (E.encrypt (Z.compress pt)
              (if A.direct then key.k else rng.take E.cek_size)
              ((rng.drop E.cek_size).take E.iv_size) (b64encode (jsonEncode p))).1,
            tag := (E.encrypt (Z.compress pt)
              (if A.direct then key.k else rng.take E.cek_size)
              ((rng.drop E.cek_size).take E.iv_size) (b64encode (jsonEncode p))).2 } key reg
          = .ok { protected_header := p, plaintext := pt,
                  protectedSegment := b64encode (jsonEncode p),
                  encrypted_key := if A.direct then [] else
                    A.wrap (if A.direct then key.k else rng.take E.cek_size) key,
                  iv := (rng.drop E.cek_size).take E.iv_size,
                  ciphertext := (E.encrypt (Z.compress pt)
                    (if A.direct then key.k else rng.take E.cek_size)
                    ((rng.drop E.cek_size).take E.iv_size) (b64encode (jsonEncode p))).1,
                  tag := (E.encrypt (Z.compress pt)
                    (if A.direct then key.k else rng.take E.cek_size)
                    ((rng.drop E.cek_size).take E.iv_size) (b64encode (jsonEncode p))).2 } := by
        cases hd : A.direct with
        | true =>
            simp only [perform_decrypt, hla, hle, hga, hge, hlz', hgz', hd, if_true,
              if_pos rfl, hdec, hzinv']
        | false =>
            have hu := hwrap hd (rng.take E.cek_size) (fun b hb => hrng b (List.mem_of_mem_take hb))
            simp only [perform_decrypt, hla, hle, hga, hge, hlz', hgz', hd,
              Bool.false_eq_true, if_false, hu, hdec, hzinv']
      have henc2 : encrypt_compact p pt key (some reg) rng
          = .ok (represent_compact
              { protected_header := p, plaintext := pt,
                protectedSegment := b64encode (jsonEncode p),
                encrypted_key := if A.direct then [] else
                  A.wrap (if A.direct then key.k else rng.take E.cek_size) key,
                iv := (rng.drop E.cek_size).take E.iv_size,
                ciphertext := (E.encrypt (Z.compress pt)
                  (if A.direct then key.k else rng.take E.cek_size)
                  ((rng.drop E.cek_size).take E.iv_size) (b64encode (jsonEncode p))).1,
                tag := (E.encrypt (Z.compress pt)
                  (if A.direct then key.k else rng.take E.cek_size)
                  ((rng.drop E.cek_size).take E.iv_size) (b64encode (jsonEncode p))).2 }) := by
        simp only [encrypt_compact, guess_key_jwe, Option.getD]
        rw [hperf]
      have hdec2 : decrypt_compact (represent_compact
              { protected_header := p, plaintext := pt,
                protectedSegment := b64encode (jsonEncode p),
                encrypted_key := if A.direct then [] else
                  A.wrap (if A.direct then key.k else rng.take E.cek_size) key,
                iv := (rng.drop E.cek_size).take E.iv_size,
                ciphertext := (E.encrypt (Z.compress pt)
                  (if A.direct then key.k else rng.take E.cek_size)
                  ((rng.drop E.cek_size).take E.iv_size) (b64encode (jsonEncode p))).1,
                tag := (E.encrypt (Z.compress pt)
                  (if A.direct then key.k else rng.take E.cek_size)
                  ((rng.drop E.cek_size).take E.iv_size) (b64encode (jsonEncode p))).2 })
            key (some reg)
          = .ok { protected_header := p, plaintext := pt,
                  protectedSegment := b64encode (jsonEncode p),
                  encrypted_key := if A.direct then [] else
                    A.wrap (if A.direct then key.k else rng.take E.cek_size) key,
                  iv := (rng.drop E.cek_size).take E.iv_size,
                  ciphertext := (E.encrypt (Z.compress pt)
                    (if A.direct then key.k else rng.take E.cek_size)
                    ((rng.drop E.cek_size).take E.iv_size) (b64encode (jsonEncode p))).1,
                  tag := (E.encrypt (Z.compress pt)
                    (if A.direct then key.k else rng.take E.cek_size)
                    ((rng.drop E.cek_size).take E.iv_size) (b64encode (jsonEncode p))).2 } := by
        simp only [decrypt_compact, to_bytes, guess_key_jwe, Option.getD]
        rw [hx]
        exact hdecperf
      exact ⟨_, henc2, _, hdec2, rfl⟩

/-- C2: for every supported (alg, enc, zip) triple of the registry and
matching key, `decrypt_compact` applied to the result of `encrypt_compact`
returns the original plaintext, for every plaintext including the empty
byte string (the RNG draw is explicit; all byte strings genuine). -/
theorem C2_jwe_roundtrip :
    ∀ (A : JWEAlgModel) (E : JWEEncModel) (zipOpt : Option JWEZipModel)
      (p : Header) (pt : Bytes) (key : Key) (rng : Bytes),
      A ∈ default_registry.algs →
      E ∈ default_registry.encs →
      (zipOpt = none ∨ ∃ Z ∈ default_registry.zips, zipOpt = some Z) →
      hlookup p (strBytes "alg") = some A.name →
      hlookup p (strBytes "enc") = some E.name →
      hlookup p (strBytes "zip") = Option.map (fun Z => Z.name) zipOpt →
      PlainHeader p →
      (∀ b ∈ pt, b < 256) → (∀ b ∈ key.k, b < 256) → (∀ b ∈ rng, b < 256) →
      ∃ out, encrypt_compact p pt key none rng = .ok out ∧
        ∃ obj, decrypt_compact out key none = .ok obj ∧ obj.plaintext = pt := by
  intro A E zipOpt p pt key rng hA hE hZ hla hle hlz hwf hpt hkey hrng
  have hE' : E = gcmEnc := by
    simp only [default_registry, List.mem_cons, List.not_mem_nil, or_false,
      List.mem_singleton] at hE
    exact hE
  subst hE'
  have hgz : ∀ Z, zipOpt = some Z → default_registry.get_zip Z.name = some Z := by
    intro Z hZ'
    rcases hZ with rfl | ⟨Z', hZm, hZeq⟩
    · cases hZ'
    · rw [hZ'] at hZeq
      cases hZeq
      simp only [default_registry, List.mem_cons, List.not_mem_nil, or_false,
        List.mem_singleton] at hZm
      subst hZm
      rfl
  have hzinv : ∀ Z, zipOpt = some Z → Z.decompress (Z.compress pt) = some pt := by
    intro Z hZ'
    rcases hZ with rfl | ⟨Z', hZm, hZeq⟩
    · cases hZ'
    · rw [hZ'] at hZeq
      cases hZeq
      simp only [default_registry, List.mem_cons, List.not_mem_nil, or_false,
        List.mem_singleton] at hZm
      subst hZm
      simp [defZip]
  have hz_lt : ∀ Z, zipOpt = some Z → ∀ b ∈ Z.compress pt, b < 256 := by
    intro Z hZ'
    rcases hZ with rfl | ⟨Z', hZm, hZeq⟩
    · cases hZ'
    · rw [hZ'] at hZeq
      cases hZeq
      simp only [default_registry, List.mem_cons, List.not_mem_nil, or_false,
        List.mem_singleton] at hZm
      subst hZm
      intro b hb
      simp only [defZip, List.mem_cons] at hb
      rcases hb with rfl | hb
      · omega
      · exact hpt b hb
  have hdec : ∀ q cek iv aad, gcmEnc.decrypt (gcmEnc.encrypt q cek iv aad).1 cek iv aad
      (gcmEnc.encrypt q cek iv aad).2 = some q := by
    intro q cek iv aad
    simp [gcmEnc, xorPad_involution]
  have hct_lt : ∀ q cek iv aad, (∀ b ∈ q, b < 256) → (∀ b ∈ cek, b < 256) →
      (∀ b ∈ iv, b < 256) → ∀ b ∈ (gcmEnc.encrypt q cek iv aad).1, b < 256 := by
    intro q cek iv aad hq hc hi
    refine xorPad_lt _ _ ?_ hq
    intro b hb
    rcases List.mem_append.mp hb with hb | hb
    · exact hc b hb
    · exact hi b hb
  have htag_lt : ∀ q cek iv aad, ∀ b ∈ (gcmEnc.encrypt q cek iv aad).2, b < 256 := by
    intro q cek iv aad
    exact hmacSha256_lt _ _
  simp only [default_registry, List.mem_cons, List.not_mem_nil, or_false,
    List.mem_singleton] at hA
  rcases hA with rfl | rfl
  · exact jwe_roundtrip_core default_registry dirAlg gcmEnc zipOpt p pt key rng
      hwf hla hle rfl rfl hlz hgz hzinv hz_lt
      (fun h => by simp [dirAlg] at h) (fun h => by simp [dirAlg] at h)
      hdec hct_lt htag_lt hpt hkey hrng
  · exact jwe_roundtrip_core default_registry kwAlg gcmEnc zipOpt p pt key rng
      hwf hla hle rfl rfl hlz hgz hzinv hz_lt
      (fun _ cek hcb => by simp [kwAlg, xorPad_involution])
      (fun _ cek hcb => xorPad_lt key.k cek hkey hcb)
      hdec hct_lt htag_lt hpt hkey hrng

/-- Witness for C2: the (dir, A256GCM, no zip) triple with the empty
plaintext round-trips under key `"secret"`. -/
theorem C2_jwe_roundtrip_witness :
    ∃ out, encrypt_compact
        [(strBytes "alg", strBytes "dir"), (strBytes "enc", strBytes "A256GCM")]
        [] (OctKey "secret") none (List.range 64) = .ok out ∧
      ∃ obj, decrypt_compact out (OctKey "secret") none = .ok obj ∧ obj.plaintext = [] :=
  C2_jwe_roundtrip dirAlg gcmEnc none
    [(strBytes "alg", strBytes "dir"), (strBytes "enc", strBytes "A256GCM")]
    [] (OctKey "secret") (List.range 64)
    (by simp [default_registry]) (by simp [default_registry]) (Or.inl rfl)
    (by decide) (by decide) (by decide) (by decide)
    (by decide) (by decide) (by decide)

end Joserfc
